import Mathlib

/-!
Verification of the board engine and command parsing of the terminal
Minesweeper implementation (src/minesweeper.py).

The embedding is shallow: the mutable `MinesweeperGame` object becomes a
`Game` value that every operation transforms; Python exceptions become
`Except` errors.  The only source of randomness in the program is
`random.Random.sample` inside `_place_mines`; the embedding passes the
sampled positions to the operations explicitly, and theorems hypothesise
exactly what `random.sample(available, mines)` guarantees: the result is a
duplicate-free list of `mines` elements of `available`.
-/

namespace Minesweeper

/-- One grid cell, mirroring the `Cell` dataclass. -/
structure Cell where
  is_mine : Bool := false
  is_revealed : Bool := false
  is_flagged : Bool := false
  adjacent_mines : Nat := 0
deriving DecidableEq

/-- The whole game state, mirroring the attributes of `MinesweeperGame`
(the `random.Random` instance is not part of the state; see module note). -/
structure Game where
  rows : Nat
  cols : Nat
  mines : Nat
  board : List (List Cell)
  mines_placed : Bool
deriving DecidableEq

/-- The error conditions the engine can raise (all `ValueError` in Python),
named after the spec's taxonomy. -/
inductive MSError where
  | invalidDimensions
  | invalidMineCount
  | outOfBounds
deriving DecidableEq

/-- Replace element `i` of a list by `f` applied to it; out-of-range indices
leave the list unchanged (list assignment in Python is always in range on a
well-formed board). -/
def modifyIdx {α : Type} (l : List α) (i : Nat) (f : α → α) : List α :=
  match l, i with
  | [], _ => []
  | x :: xs, 0 => f x :: xs
  | x :: xs, Nat.succ n => x :: modifyIdx xs n f

/-- Read `self._board[r][c]`; out-of-range reads return a default cell (the
Python code only indexes in bounds). -/
def getCell (g : Game) (r c : Nat) : Cell :=
  (g.board.getD r []).getD c {}

/-- Write `self._board[r][c] = f (self._board[r][c])`. -/
def setCell (g : Game) (r c : Nat) (f : Cell → Cell) : Game :=
  { g with board := modifyIdx g.board r (fun row => modifyIdx row c f) }

/-- The board is a `rows × cols` grid, as built by `__init__`. -/
def WF (g : Game) : Prop :=
  g.board.length = g.rows ∧ ∀ i, i < g.rows → (g.board.getD i []).length = g.cols

/-- Constructor `MinesweeperGame.__init__`: validates dimensions and mine
count, then builds the all-default board with mines not yet placed. -/
def create (rows cols mines : Int) : Except MSError Game :=
  if rows ≤ 0 ∨ cols ≤ 0 then .error .invalidDimensions
  else if mines ≤ 0 then .error .invalidMineCount
  else if rows * cols ≤ mines then .error .invalidMineCount
  else .ok { rows := rows.toNat, cols := cols.toNat, mines := mines.toNat,
             board := List.replicate rows.toNat (List.replicate cols.toNat {}),
             mines_placed := false }

/-- The bounds check of `_validate_position`:
`0 <= row < self.rows and 0 <= col < self.cols`. -/
def validPos (g : Game) (row col : Int) : Bool :=
  decide (0 ≤ row ∧ row < (g.rows : Int) ∧ 0 ≤ col ∧ col < (g.cols : Int))

/-- The offsets `(dr, dc)` iterated by `_neighbors`, in source order
(`dr` then `dc` over `(-1, 0, 1)`, skipping `(0, 0)`). -/
def offsets : List (Int × Int) :=
  [(-1, -1), (-1, 0), (-1, 1), (0, -1), (0, 1), (1, -1), (1, 0), (1, 1)]

/-- `_neighbors`: the in-bounds cells of the 8-neighborhood of `(row, col)`. -/
def neighbors (g : Game) (row col : Nat) : List (Nat × Nat) :=
  offsets.filterMap (fun d =>
    let nr : Int := (row : Int) + d.1
    let nc : Int := (col : Int) + d.2
    if 0 ≤ nr ∧ nr < (g.rows : Int) ∧ 0 ≤ nc ∧ nc < (g.cols : Int) then
      some (nr.toNat, nc.toNat)
    else none)

/-- The full grid as a position list, in the iteration order of
`for r in range(rows) for c in range(cols)`. -/
def gridCells (rows cols : Nat) : List (Nat × Nat) :=
  (List.range rows).flatMap (fun r => (List.range cols).map (fun c => (r, c)))

/-- The `available` list of `_place_mines`: every grid position other than
the excluded one. -/
def availablePositions (g : Game) (exclude : Nat × Nat) : List (Nat × Nat) :=
  (gridCells g.rows g.cols).filter (fun p => p ≠ exclude)

/-- The clue a non-mine cell receives in `_compute_adjacent_counts`:
`sum(1 for nr, nc in self._neighbors(r, c) if self._board[nr][nc].is_mine)`. -/
def adjCount (g : Game) (r c : Nat) : Nat :=
  ((neighbors g r c).filter (fun p => (getCell g p.1 p.2).is_mine)).length

/-- `_compute_adjacent_counts`: rewrite every cell's `adjacent_mines`; mines
get `0`, other cells get the count of mines among their neighbors.  The
Python loop mutates in place but only ever reads `is_mine` fields, which it
never writes, so the batch recomputation is equivalent. -/
def computeAdjacentCounts (g : Game) : Game :=
  { g with board := (List.range g.rows).map (fun r =>
      (List.range g.cols).map (fun c =>
        let cell := getCell g r c
        if cell.is_mine then { cell with adjacent_mines := 0 }
        else { cell with adjacent_mines := adjCount g r c })) }

/-- `_place_mines`, with the result of `self._random.sample(available,
self.mines)` passed in as `sample`: set `is_mine` on each sampled position,
recompute the clue numbers, and record that mines are placed. -/
def placeMines (g : Game) (sample : List (Nat × Nat)) : Game :=
  let g1 := sample.foldl
    (fun acc p => setCell acc p.1 p.2 (fun cl => { cl with is_mine := true })) g
  let g2 := computeAdjacentCounts g1
  { g2 with mines_placed := true }

/-- What `random.sample(available, mines)` guarantees when it succeeds: a
duplicate-free list of `mines` positions drawn from `available`. -/
def SampleOk (g : Game) (sample : List (Nat × Nat)) (exclude : Nat × Nat) : Prop :=
  sample.Nodup ∧ sample.length = g.mines ∧
    ∀ p ∈ sample, p ∈ availablePositions g exclude

instance (g : Game) (sample : List (Nat × Nat)) (e : Nat × Nat) :
    Decidable (SampleOk g sample e) := by
  unfold SampleOk
  infer_instance

instance (g : Game) : Decidable (WF g) := by
  unfold WF
  infer_instance

/-- Mark a cell revealed (`neighbor.is_revealed = True`). -/
def revealCellAt (g : Game) (p : Nat × Nat) : Game :=
  setCell g p.1 p.2 (fun cl => { cl with is_revealed := true })

/-- The body of the `for nr, nc in self._neighbors(...)` loop inside
`_flood_reveal`: skip revealed, flagged or mined neighbors; reveal the rest;
push a newly revealed zero-clue neighbor that is not yet visited. -/
def processNeighbors (g : Game) (ps : List (Nat × Nat))
    (stack visited : List (Nat × Nat)) :
    Game × List (Nat × Nat) × List (Nat × Nat) :=
  match ps with
  | [] => (g, stack, visited)
  | p :: rest =>
    let cell := getCell g p.1 p.2
    if cell.is_revealed || cell.is_flagged || cell.is_mine then
      processNeighbors g rest stack visited
    else
      let g' := revealCellAt g p
      if cell.adjacent_mines = 0 ∧ p ∉ visited then
        processNeighbors g' rest (p :: stack) (p :: visited)
      else
        processNeighbors g' rest stack visited

/-- The `while stack:` loop of `_flood_reveal`.  The Python loop needs no
fuel (the visited set bounds it); here the fuel makes the recursion
structural, and the termination theorem shows `rows * cols` fuel is always
enough.  The list head plays the role of the end of the Python list, so
`stack.pop()` is the head and `stack.append` is cons. -/
def floodLoop : Nat → Game → List (Nat × Nat) → List (Nat × Nat) → Game
  | 0, g, _, _ => g
  | _ + 1, g, [], _ => g
  | fuel + 1, g, cur :: rest, visited =>
    let t := processNeighbors g (neighbors g cur.1 cur.2) rest visited
    floodLoop fuel t.1 t.2.1 t.2.2

/-- `_flood_reveal`: start from `(row, col)` with it already on the stack and
in the visited set. -/
def floodReveal (g : Game) (row col : Nat) : Game :=
  floodLoop (g.rows * g.cols) g [(row, col)] [(row, col)]

/-- `MinesweeperGame.reveal`: validate, lazily place mines (excluding the
target), no-op on flagged or already revealed cells, reveal the cell,
report a mine, or flood-reveal from a zero-clue cell.  `sample` is the mine
sample used if this call triggers placement (ignored otherwise). -/
def reveal (g : Game) (sample : List (Nat × Nat)) (row col : Int) :
    Except MSError (Game × Bool) :=
  if validPos g row col then
    let r := row.toNat
    let c := col.toNat
    let g1 := if g.mines_placed then g else placeMines g sample
    let cell := getCell g1 r c
    if cell.is_flagged || cell.is_revealed then .ok (g1, true)
    else
      let g2 := revealCellAt g1 (r, c)
      if cell.is_mine then .ok (g2, false)
      else if cell.adjacent_mines = 0 then .ok (floodReveal g2 r c, true)
      else .ok (g2, true)
  else .error .outOfBounds

/-- `MinesweeperGame.toggle_flag`: validate, no-op on revealed cells,
otherwise invert the flag.  Note: unlike `reveal`, it never places mines. -/
def toggle_flag (g : Game) (row col : Int) : Except MSError Game :=
  if validPos g row col then
    let r := row.toNat
    let c := col.toNat
    if (getCell g r c).is_revealed then .ok g
    else .ok (setCell g r c (fun cl => { cl with is_flagged := !cl.is_flagged }))
  else .error .outOfBounds

/-- Number of cells of the grid currently carrying a mine. -/
def countMines (g : Game) : Nat :=
  ((gridCells g.rows g.cols).filter (fun p => (getCell g p.1 p.2).is_mine)).length

/-- The spec's mines-placed invariant: the mine count is exactly `mines` and
every non-mine cell's clue equals the number of mined neighbors. -/
def MinesInv (g : Game) : Prop :=
  countMines g = g.mines ∧
    ∀ r c, r < g.rows → c < g.cols → (getCell g r c).is_mine = false →
      (getCell g r c).adjacent_mines = adjCount g r c

/-- Game states producible by the engine API: construction, then any
sequence of reveals (with well-formed mine samples, as `random.sample`
produces) and flag toggles. -/
inductive Reachable : Game → Prop where
  | created {rows cols mines : Int} {g : Game} :
      create rows cols mines = .ok g → Reachable g
  | revealed {g : Game} {sample : List (Nat × Nat)} {row col : Int}
      {g' : Game} {b : Bool} :
      Reachable g →
      (g.mines_placed = false → SampleOk g sample (row.toNat, col.toNat)) →
      reveal g sample row col = .ok (g', b) → Reachable g'
  | flagged {g : Game} {row col : Int} {g' : Game} :
      Reachable g → toggle_flag g row col = .ok g' → Reachable g'

/-- A cell the flood cascade is allowed to open: not yet revealed, not
flagged, not a mine. -/
def openableG (g : Game) (p : Nat × Nat) : Prop :=
  (getCell g p.1 p.2).is_revealed = false ∧
    (getCell g p.1 p.2).is_flagged = false ∧
    (getCell g p.1 p.2).is_mine = false

/-- A zero-clue cell the cascade can expand from: openable with clue `0`. -/
def zcell (g : Game) (p : Nat × Nat) : Prop :=
  openableG g p ∧ (getCell g p.1 p.2).adjacent_mines = 0

/-- The connected component of unopened, unflagged, zero-clue, non-mine
cells containing `s`, under 8-neighborhood adjacency. -/
inductive ZReach (g : Game) (s : Nat × Nat) : Nat × Nat → Prop where
  | base : ZReach g s s
  | step {q p : Nat × Nat} : ZReach g s q → zcell g q →
      p ∈ neighbors g q.1 q.2 → zcell g p → ZReach g s p

instance (g : Game) (p : Nat × Nat) : Decidable (openableG g p) := by
  unfold openableG
  infer_instance

instance (g : Game) (p : Nat × Nat) : Decidable (zcell g p) := by
  unfold zcell
  infer_instance

/-- The cells a flood reveal starting at `s` opens: the openable cells that
are `s` itself or neighbors of the zero-region of `s`. -/
def Opens (g : Game) (s p : Nat × Nat) : Prop :=
  openableG g p ∧ (p = s ∨ ∃ q, ZReach g s q ∧ p ∈ neighbors g q.1 q.2)

/-- Modelled from the spec: the region cell condition as the flood-reveal
claim words it — unflagged, zero-clue, non-mine — with no condition on
whether the cell is already opened. -/
def zcellSpec (g : Game) (p : Nat × Nat) : Prop :=
  (getCell g p.1 p.2).is_flagged = false ∧
    (getCell g p.1 p.2).is_mine = false ∧
    (getCell g p.1 p.2).adjacent_mines = 0

instance (g : Game) (p : Nat × Nat) : Decidable (zcellSpec g p) := by
  unfold zcellSpec
  infer_instance

/-- Modelled from the spec: the connected region of unflagged zero-clue
non-mine cells containing `s`, as the flood-reveal claim words it. -/
inductive ZReachSpec (g : Game) (s : Nat × Nat) : Nat × Nat → Prop where
  | base : ZReachSpec g s s
  | step {q p : Nat × Nat} : ZReachSpec g s q → zcellSpec g q →
      p ∈ neighbors g q.1 q.2 → zcellSpec g p → ZReachSpec g s p

/-- Loop measure of `floodLoop` on a `rows * cols` grid: cells not yet
visited plus entries still on the stack. -/
def Phi (total : Nat) (stack visited : List (Nat × Nat)) : Nat :=
  (total - visited.length) + stack.length

/-- Invariant tying an intermediate `floodLoop` state (`g`, `stack`,
`visited`) to the game `G` as it was when the enclosing `reveal` started
the cascade at `s`. -/
structure FloodInv (G : Game) (s : Nat × Nat) (g : Game)
    (stack visited : List (Nat × Nat)) : Prop where
  dimsR : g.rows = G.rows
  dimsC : g.cols = G.cols
  wf : WF g
  frame : ∀ r c, (getCell g r c).is_mine = (getCell G r c).is_mine ∧
      (getCell g r c).is_flagged = (getCell G r c).is_flagged ∧
      (getCell g r c).adjacent_mines = (getCell G r c).adjacent_mines
  mono : ∀ r c, (getCell G r c).is_revealed = true →
      (getCell g r c).is_revealed = true
  visZ : ∀ p ∈ visited, ZReach G s p
  stSub : ∀ p ∈ stack, p ∈ visited
  visNodup : visited.Nodup
  visBounds : ∀ p ∈ visited, p.1 < G.rows ∧ p.2 < G.cols
  visRev : ∀ p ∈ visited, (getCell g p.1 p.2).is_revealed = true
  zVis : ∀ p, zcell G p → (getCell g p.1 p.2).is_revealed = true → p ∈ visited
  sound : ∀ r c, (getCell g r c).is_revealed = true →
      (getCell G r c).is_revealed = true ∨ Opens G s (r, c)
  closed : ∀ q ∈ visited, q ∉ stack → ∀ p ∈ neighbors G q.1 q.2,
      openableG G p → (getCell g p.1 p.2).is_revealed = true

/-- ASCII lower-casing of a character, the effect of `str.lower()` on the
command alphabet this program cares about. -/
def lowerChar (c : Char) : Char :=
  if 'A' ≤ c ∧ c ≤ 'Z' then Char.ofNat (c.toNat + 32) else c

/-- ASCII lower-casing of a token (`tokens[0].lower()`). -/
def lowerString (s : String) : String :=
  String.mk (s.data.map lowerChar)

/-- First character of a token as a string (`action[0]`). -/
def strTake1 (s : String) : String :=
  String.mk (s.data.take 1)

/-- Decimal digit value of a character, if any. -/
def digitVal (c : Char) : Option Nat :=
  if '0' ≤ c ∧ c ≤ '9' then some (c.toNat - '0'.toNat) else none

/-- Parse a non-empty all-digit character list as a natural number. -/
def parseNat? (cs : List Char) : Option Nat :=
  match cs with
  | [] => none
  | _ => cs.foldl (fun acc c => acc.bind (fun n => (digitVal c).map (fun d => n * 10 + d)))
      (some 0)

/-- Integer-literal parsing, the effect of Python's `int(token)` on an
optional minus sign followed by digits (the forms the spec's grammar
involves). -/
def parseInt? (s : String) : Option Int :=
  match s.data with
  | '-' :: rest => (parseNat? rest).map (fun n => -(n : Int))
  | cs => (parseNat? cs).map (fun n => (n : Int))

/-- The recoverable command-parse failures of `parse_command` (each a
`ValueError` in Python). -/
inductive ParseError where
  | emptyInput
  | unknownCommand
  | missingCoords
  | badInteger
deriving DecidableEq

/-- `parse_command`, applied to the whitespace-split tokens of the input
line (`text.strip().split()`): quit words first, then reject unknown action
words, then require exactly the action plus two integer tokens, returning
the action's first letter and 0-based coordinates. -/
def parse_command (tokens : List String) :
    Except ParseError (String × Option (Int × Int)) :=
  match tokens with
  | [] => .error .emptyInput
  | t :: rest =>
    let action := lowerString t
    if action = "q" ∨ action = "quit" ∨ action = "exit" then .ok ("quit", none)
    else if action = "r" ∨ action = "reveal" ∨ action = "f" ∨ action = "flag" then
      match rest with
      | [a, b] =>
        match parseInt? a, parseInt? b with
        | some row, some col => .ok (strTake1 action, some (row - 1, col - 1))
        | _, _ => .error .badInteger
      | _ => .error .missingCoords
    else .error .unknownCommand

/-- Placeholder game used only to destructure `Except` results of concrete
runs; every concrete chain below is proved to succeed. -/
def defGame : Game :=
  { rows := 0, cols := 0, mines := 0, board := [], mines_placed := false }

/-- Concrete run on a 1×7 board with one mine forced to `(0, 6)`: flag the
cells `(0, 1)` and `(0, 3)`, reveal `(0, 2)` (placing the mine), then
unflag both cells again.  The resulting state has only `(0, 2)` opened
while `(0, 0)` and `(0, 1)` are unopened, unflagged, zero-clue cells. -/
def c3Chain : Except MSError Game := do
  let g ← create 1 7 1
  let g ← toggle_flag g 0 1
  let g ← toggle_flag g 0 3
  let (g, _) ← reveal g [(0, 6)] 0 2
  let g ← toggle_flag g 0 1
  let g ← toggle_flag g 0 3
  pure g

/-- The state reached by `c3Chain`. -/
def c3Before : Game :=
  match c3Chain with | .ok g => g | .error _ => defGame

/-- The state after revealing `(0, 4)` in `c3Before`. -/
def c3After : Game :=
  match reveal c3Before [] 0 4 with | .ok (g, _) => g | _ => defGame

/-- Concrete run: a fresh 2×2 board with one mine, first action flags
`(0, 0)`. -/
def c4Chain : Except MSError Game := do
  let g ← create 2 2 1
  let g ← toggle_flag g 0 0
  pure g

/-- The state reached by `c4Chain`: mines not yet placed, `(0, 0)`
flagged. -/
def c4Before : Game :=
  match c4Chain with | .ok g => g | .error _ => defGame

/-- The state after revealing the flagged cell `(0, 0)` of `c4Before` with
mine sample `[(1, 1)]`. -/
def c4After : Game :=
  match reveal c4Before [(1, 1)] 0 0 with | .ok (g, _) => g | _ => defGame

/-- A fresh 2×2 board with one mine, as built by `create 2 2 1`. -/
def fresh2x2 : Game :=
  match create 2 2 1 with | .ok g => g | .error _ => defGame

/-- A fresh 5×5 board with five mines, as built by `create 5 5 5`. -/
def fresh5x5 : Game :=
  match create 5 5 5 with | .ok g => g | .error _ => defGame

/-- A fixed, valid 5-mine sample for the 5×5 board, avoiding `(0, 0)`. -/
def c2Sample : List (Nat × Nat) := [(1, 1), (2, 3), (3, 0), (4, 4), (0, 3)]

/-- The 5×5 board after a first reveal at `(0, 0)` placed the mines of
`c2Sample`. -/
def c2Board : Game :=
  match reveal fresh5x5 c2Sample 0 0 with | .ok (g, _) => g | _ => defGame

deriving instance DecidableEq for Except

lemma modifyIdx_length {α : Type} (l : List α) (i : Nat) (f : α → α) :
    (modifyIdx l i f).length = l.length := by
  induction l generalizing i with
  | nil => rfl
  | cons x xs ih =>
    cases i with
    | zero => rfl
    | succ n => simp [modifyIdx, ih]

lemma getD_modifyIdx_self {α : Type} (l : List α) (i : Nat) (f : α → α) (d : α)
    (h : i < l.length) : (modifyIdx l i f).getD i d = f (l.getD i d) := by
  induction l generalizing i with
  | nil => simp at h
  | cons x xs ih =>
    cases i with
    | zero => rfl
    | succ n => simpa [modifyIdx] using ih n (by simpa using h)

lemma getD_modifyIdx_ne {α : Type} (l : List α) (i j : Nat) (f : α → α) (d : α)
    (h : i ≠ j) : (modifyIdx l i f).getD j d = l.getD j d := by
  induction l generalizing i j with
  | nil => rfl
  | cons x xs ih =>
    cases i with
    | zero =>
      cases j with
      | zero => exact absurd rfl h
      | succ m => rfl
    | succ n =>
      cases j with
      | zero => rfl
      | succ m => simpa [modifyIdx] using ih n m (by omega)

lemma modifyIdx_oob {α : Type} (l : List α) (i : Nat) (f : α → α)
    (h : l.length ≤ i) : modifyIdx l i f = l := by
  induction l generalizing i with
  | nil => rfl
  | cons x xs ih =>
    cases i with
    | zero => simp at h
    | succ n => simp [modifyIdx, ih n (by simpa using h)]

lemma setCell_rows (g : Game) (r c : Nat) (f : Cell → Cell) :
    (setCell g r c f).rows = g.rows := rfl

lemma setCell_cols (g : Game) (r c : Nat) (f : Cell → Cell) :
    (setCell g r c f).cols = g.cols := rfl

lemma setCell_mines (g : Game) (r c : Nat) (f : Cell → Cell) :
    (setCell g r c f).mines = g.mines := rfl

lemma setCell_mines_placed (g : Game) (r c : Nat) (f : Cell → Cell) :
    (setCell g r c f).mines_placed = g.mines_placed := rfl

lemma getCell_setCell_ne (g : Game) (r c r' c' : Nat) (f : Cell → Cell)
    (h : (r, c) ≠ (r', c')) :
    getCell (setCell g r c f) r' c' = getCell g r' c' := by
  unfold getCell setCell
  by_cases hr : r = r'
  · subst hr
    have hc : c ≠ c' := by
      intro hc; exact h (by rw [hc])
    rcases Nat.lt_or_ge r g.board.length with hlt | hge
    · simp only []
      rw [getD_modifyIdx_self g.board r _ [] hlt, getD_modifyIdx_ne _ c c' f _ hc]
    · rw [modifyIdx_oob g.board r _ hge]
  · simp only []
    rw [getD_modifyIdx_ne g.board r r' _ [] hr]

lemma getCell_setCell_self (g : Game) (r c : Nat) (f : Cell → Cell)
    (hr : r < g.board.length) (hc : c < (g.board.getD r []).length) :
    getCell (setCell g r c f) r c = f (getCell g r c) := by
  unfold getCell setCell
  simp only []
  rw [getD_modifyIdx_self g.board r _ [] hr, getD_modifyIdx_self _ c f _ hc]

lemma getCell_setCell_cases (g : Game) (r c r' c' : Nat) (f : Cell → Cell) :
    getCell (setCell g r c f) r' c' = getCell g r' c' ∨
      getCell (setCell g r c f) r' c' = f (getCell g r' c') := by
  by_cases h : (r, c) = (r', c')
  · obtain ⟨rfl, rfl⟩ : r = r' ∧ c = c' := by
      exact ⟨congrArg Prod.fst h, congrArg Prod.snd h⟩
    rcases Nat.lt_or_ge r g.board.length with hr | hr
    · rcases Nat.lt_or_ge c (g.board.getD r []).length with hc | hc
      · exact Or.inr (getCell_setCell_self g r c f hr hc)
      · left
        unfold getCell setCell
        simp only []
        rw [getD_modifyIdx_self g.board r _ [] hr, modifyIdx_oob _ c f hc]
    · left
      unfold getCell setCell
      simp only []
      rw [modifyIdx_oob g.board r _ hr]
  · exact Or.inl (getCell_setCell_ne g r c r' c' f h)

lemma WF_setCell (g : Game) (r c : Nat) (f : Cell → Cell) (hwf : WF g) :
    WF (setCell g r c f) := by
  obtain ⟨hlen, hrow⟩ := hwf
  constructor
  · show (modifyIdx g.board r _).length = g.rows
    rw [modifyIdx_length, hlen]
  · intro i hi
    show ((modifyIdx g.board r _).getD i []).length = g.cols
    by_cases hir : i = r
    · subst hir
      rcases Nat.lt_or_ge i g.board.length with hlt | hge
      · rw [getD_modifyIdx_self g.board i _ [] hlt, modifyIdx_length]
        exact hrow i hi
      · rw [modifyIdx_oob g.board i _ hge]
        exact hrow i hi
    · rw [getD_modifyIdx_ne g.board r i _ [] (fun hh => hir hh.symm)]
      exact hrow i hi

lemma validPos_iff (g : Game) (row col : Int) :
    validPos g row col = true ↔
      0 ≤ row ∧ row < (g.rows : Int) ∧ 0 ≤ col ∧ col < (g.cols : Int) := by
  simp [validPos]

lemma validPos_toNat (g : Game) (row col : Int) (h : validPos g row col = true) :
    row.toNat < g.rows ∧ col.toNat < g.cols := by
  rw [validPos_iff] at h
  omega

lemma mem_neighbors_bounds (g : Game) (r c : Nat) (p : Nat × Nat)
    (h : p ∈ neighbors g r c) : p.1 < g.rows ∧ p.2 < g.cols := by
  unfold neighbors at h
  rw [List.mem_filterMap] at h
  obtain ⟨d, _, hd⟩ := h
  simp only [] at hd
  split at hd
  · rename_i hcond
    cases hd
    simp only []
    omega
  · exact absurd hd (by simp)

lemma neighbors_dims_congr (g g' : Game) (r c : Nat)
    (h1 : g'.rows = g.rows) (h2 : g'.cols = g.cols) :
    neighbors g' r c = neighbors g r c := by
  unfold neighbors
  rw [h1, h2]

lemma mem_gridCells (R C : Nat) (p : Nat × Nat) :
    p ∈ gridCells R C ↔ p.1 < R ∧ p.2 < C := by
  unfold gridCells
  simp only [List.mem_flatMap, List.mem_map, List.mem_range]
  constructor
  · rintro ⟨r, hr, c, hc, rfl⟩
    exact ⟨hr, hc⟩
  · rintro ⟨h1, h2⟩
    exact ⟨p.1, h1, p.2, h2, rfl⟩

lemma nodup_gridCells (R C : Nat) : (gridCells R C).Nodup := by
  unfold gridCells
  rw [List.nodup_flatMap]
  constructor
  · intro r _
    exact (List.nodup_range C).map (fun a b hab => congrArg Prod.snd hab)
  · have : ∀ r1 r2 : Nat, r1 ≠ r2 →
        ∀ x ∈ (List.range C).map (fun c => (r1, c)),
          x ∉ (List.range C).map (fun c => (r2, c)) := by
      intro r1 r2 hne x hx1 hx2
      rw [List.mem_map] at hx1 hx2
      obtain ⟨c1, _, rfl⟩ := hx1
      obtain ⟨c2, _, h2⟩ := hx2
      exact hne (congrArg Prod.fst h2).symm
    refine List.Pairwise.imp ?_ (List.pairwise_lt_range R)
    intro a b hab
    exact List.disjoint_left.mpr (this a b (by omega))

lemma length_gridCells (R C : Nat) : (gridCells R C).length = R * C := by
  unfold gridCells
  rw [List.length_flatMap]
  have h1 : (List.range R).map (fun r => ((List.range C).map (fun c => (r, c))).length)
      = (List.range R).map (fun _ => C) := by
    apply List.map_congr_left
    intro a _
    simp
  rw [show (List.map (List.length ∘ fun r => List.map (fun c => (r, c)) (List.range C))
      (List.range R)) = (List.range R).map (fun r => ((List.range C).map (fun c => (r, c))).length) from rfl]
  rw [h1]
  simp [List.map_const']

lemma nodup_bounds_length_le (R C : Nat) (l : List (Nat × Nat))
    (hn : l.Nodup) (hb : ∀ p ∈ l, p.1 < R ∧ p.2 < C) : l.length ≤ R * C := by
  have hsub : ∀ p ∈ l, p ∈ gridCells R C := by
    intro p hp
    exact (mem_gridCells R C p).2 (hb p hp)
  calc l.length = l.toFinset.card := (List.toFinset_card_of_nodup hn).symm
    _ ≤ (gridCells R C).toFinset.card := by
        apply Finset.card_le_card
        intro x hx
        rw [List.mem_toFinset] at hx ⊢
        exact hsub x hx
    _ ≤ (gridCells R C).length := (gridCells R C).toFinset_card_le
    _ = R * C := length_gridCells R C

lemma length_filter_mem (l s : List (Nat × Nat)) (hl : l.Nodup) (hs : s.Nodup)
    (hsub : ∀ p ∈ s, p ∈ l) :
    (l.filter (fun p => decide (p ∈ s))).length = s.length := by
  have h1 : (l.filter (fun p => decide (p ∈ s))).Nodup := hl.filter _
  have hperm : (l.filter (fun p => decide (p ∈ s))).Perm s := by
    apply List.perm_of_nodup_nodup_toFinset_eq h1 hs
    ext x
    simp only [List.mem_toFinset, List.mem_filter, decide_eq_true_eq]
    exact ⟨fun h => h.2, fun h => ⟨hsub x h, h⟩⟩
  exact hperm.length_eq

lemma mem_availablePositions (g : Game) (e p : Nat × Nat) :
    p ∈ availablePositions g e ↔ p.1 < g.rows ∧ p.2 < g.cols ∧ p ≠ e := by
  unfold availablePositions
  rw [List.mem_filter, mem_gridCells]
  simp [and_assoc]

lemma length_availablePositions (g : Game) (e : Nat × Nat)
    (he : e.1 < g.rows ∧ e.2 < g.cols) :
    (availablePositions g e).length = g.rows * g.cols - 1 := by
  unfold availablePositions
  have hco : (gridCells g.rows g.cols).filter (fun p => decide (p ≠ e))
      = (gridCells g.rows g.cols).filter (fun p => p != e) :=
    List.filter_congr (by intro a _; by_cases h : a = e <;> simp [h])
  rw [hco, ← (nodup_gridCells g.rows g.cols).erase_eq_filter e,
    List.length_erase_of_mem ((mem_gridCells _ _ e).2 he), length_gridCells]

lemma getD_replicate {α : Type} (n i : Nat) (a d : α) (h : i < n) :
    (List.replicate n a).getD i d = a := by
  rw [List.getD_eq_getElem?_getD, List.getElem?_replicate, if_pos h]
  rfl

lemma create_eq_error_dims (rows cols mines : Int) (h : rows ≤ 0 ∨ cols ≤ 0) :
    create rows cols mines = .error .invalidDimensions := by
  unfold create
  rw [if_pos h]

lemma create_eq_error_mines (rows cols mines : Int) (h1 : 0 < rows) (h2 : 0 < cols)
    (h : mines ≤ 0 ∨ rows * cols ≤ mines) :
    create rows cols mines = .error .invalidMineCount := by
  unfold create
  rw [if_neg (by omega)]
  rcases h with h | h
  · rw [if_pos h]
  · rcases Int.le_or_lt mines 0 with hm | hm
    · rw [if_pos hm]
    · rw [if_neg (by omega), if_pos h]

lemma create_eq_ok (rows cols mines : Int) (h1 : 0 < rows) (h2 : 0 < cols)
    (h3 : 0 < mines) (h4 : mines < rows * cols) :
    create rows cols mines = .ok
      { rows := rows.toNat, cols := cols.toNat, mines := mines.toNat,
        board := List.replicate rows.toNat (List.replicate cols.toNat {}),
        mines_placed := false } := by
  unfold create
  rw [if_neg (by omega), if_neg (by omega), if_neg (by omega)]

lemma create_ok_shape (rows cols mines : Int) (g : Game)
    (h : create rows cols mines = .ok g) :
    g.rows = rows.toNat ∧ g.cols = cols.toNat ∧ g.mines = mines.toNat ∧
      g.mines_placed = false ∧ WF g ∧
      (∀ r c, r < g.rows → c < g.cols → getCell g r c = {}) ∧
      0 < rows ∧ 0 < cols ∧ 0 < mines ∧ mines < rows * cols := by
  unfold create at h
  split at h
  · exact absurd h (by simp)
  · split at h
    · exact absurd h (by simp)
    · split at h
      · exact absurd h (by simp)
      · rename_i hd hm hlt
        cases h
        push_neg at hd hm hlt
        refine ⟨rfl, rfl, rfl, rfl, ?_, ?_, hd.1, hd.2, hm, hlt⟩
        · constructor
          · simp
          · intro i hi
            simp only []
            rw [getD_replicate _ _ _ _ (by simpa using hi)]
            simp
        · intro r c hr hc
          unfold getCell
          simp only [] at hr hc ⊢
          rw [getD_replicate _ _ _ _ hr, getD_replicate _ _ _ _ hc]

lemma getD_map_range {α : Type} (f : Nat → α) (n i : Nat) (d : α) (h : i < n) :
    ((List.range n).map f).getD i d = f i := by
  rw [List.getD_eq_getElem?_getD, List.getElem?_map, List.getElem?_range h]
  rfl

lemma computeAdjacentCounts_rows (g : Game) : (computeAdjacentCounts g).rows = g.rows := rfl

lemma computeAdjacentCounts_cols (g : Game) : (computeAdjacentCounts g).cols = g.cols := rfl

lemma computeAdjacentCounts_mines (g : Game) : (computeAdjacentCounts g).mines = g.mines := rfl

lemma computeAdjacentCounts_placed (g : Game) :
    (computeAdjacentCounts g).mines_placed = g.mines_placed := rfl

lemma WF_computeAdjacentCounts (g : Game) : WF (computeAdjacentCounts g) := by
  constructor
  · show ((List.range g.rows).map _).length = g.rows
    simp
  · intro i hi
    show (((List.range g.rows).map _).getD i []).length = g.cols
    rw [getD_map_range _ _ _ _ (by exact hi)]
    simp

lemma getCell_mk_board (g : Game) (b : List (List Cell)) (r c : Nat) :
    getCell { g with board := b } r c = (b.getD r []).getD c {} := rfl

lemma getCell_computeAdjacentCounts (g : Game) (r c : Nat)
    (hr : r < g.rows) (hc : c < g.cols) :
    getCell (computeAdjacentCounts g) r c =
      (if (getCell g r c).is_mine then { getCell g r c with adjacent_mines := 0 }
       else { getCell g r c with adjacent_mines := adjCount g r c }) := by
  unfold computeAdjacentCounts
  rw [getCell_mk_board, getD_map_range _ _ _ _ hr, getD_map_range _ _ _ _ hc]

lemma getCell_computeAdjacentCounts_fields (g : Game) (r c : Nat)
    (hr : r < g.rows) (hc : c < g.cols) :
    (getCell (computeAdjacentCounts g) r c).is_mine = (getCell g r c).is_mine ∧
    (getCell (computeAdjacentCounts g) r c).is_revealed = (getCell g r c).is_revealed ∧
    (getCell (computeAdjacentCounts g) r c).is_flagged = (getCell g r c).is_flagged ∧
    (getCell (computeAdjacentCounts g) r c).adjacent_mines =
      (if (getCell g r c).is_mine then 0 else adjCount g r c) := by
  rw [getCell_computeAdjacentCounts g r c hr hc]
  by_cases hm : (getCell g r c).is_mine <;> simp [hm]

lemma foldl_setMine_struct (l : List (Nat × Nat)) : ∀ g : Game,
    let F := l.foldl (fun acc p => setCell acc p.1 p.2
      (fun cl => { cl with is_mine := true })) g
    F.rows = g.rows ∧ F.cols = g.cols ∧ F.mines = g.mines ∧
      F.mines_placed = g.mines_placed ∧ (WF g → WF F) := by
  induction l with
  | nil => intro g; exact ⟨rfl, rfl, rfl, rfl, fun h => h⟩
  | cons p rest ih =>
    intro g
    obtain ⟨h1, h2, h3, h4, h5⟩ := ih (setCell g p.1 p.2 (fun cl => { cl with is_mine := true }))
    exact ⟨h1, h2, h3, h4, fun hwf => h5 (WF_setCell _ _ _ _ hwf)⟩

lemma foldl_setMine_getCell (l : List (Nat × Nat)) : ∀ g : Game, WF g →
    ∀ r c, r < g.rows → c < g.cols →
    let F := l.foldl (fun acc p => setCell acc p.1 p.2
      (fun cl => { cl with is_mine := true })) g
    (getCell F r c).is_mine = (decide ((r, c) ∈ l) || (getCell g r c).is_mine) ∧
    (getCell F r c).is_revealed = (getCell g r c).is_revealed ∧
    (getCell F r c).is_flagged = (getCell g r c).is_flagged ∧
    (getCell F r c).adjacent_mines = (getCell g r c).adjacent_mines := by
  induction l with
  | nil => intro g _ r c _ _; simp
  | cons p rest ih =>
    intro g hwf r c hr hc
    simp only [List.foldl_cons]
    set g1 := setCell g p.1 p.2 (fun cl => { cl with is_mine := true }) with hg1
    have hwf1 : WF g1 := WF_setCell _ _ _ _ hwf
    have hr1 : r < g1.rows := hr
    have hc1 : c < g1.cols := hc
    obtain ⟨m1, m2, m3, m4⟩ := ih g1 hwf1 r c hr1 hc1
    by_cases hp : p = (r, c)
    · have hself : getCell g1 r c = { getCell g r c with is_mine := true } := by
        rw [hg1, hp]
        exact getCell_setCell_self g r c _ (by rw [hwf.1]; exact hr)
          (by rw [hwf.2 r hr]; exact hc)
      refine ⟨?_, ?_, ?_, ?_⟩
      · rw [m1, hself]
        simp [hp]
      · rw [m2, hself]
      · rw [m3, hself]
      · rw [m4, hself]
    · have hne : getCell g1 r c = getCell g r c := by
        rw [hg1]
        exact getCell_setCell_ne g p.1 p.2 r c _ (by
          intro hh
          exact hp (by
            have hpp : p = (p.1, p.2) := rfl
            rw [hpp, hh]))
      have hmem : decide ((r, c) ∈ p :: rest) = decide ((r, c) ∈ rest) := by
        have hrcp : (r, c) ≠ p := fun hh => hp hh.symm
        simp [List.mem_cons, hrcp]
      refine ⟨?_, ?_, ?_, ?_⟩
      · rw [m1, hne, hmem]
      · rw [m2, hne]
      · rw [m3, hne]
      · rw [m4, hne]

lemma placeMines_rows (g : Game) (s : List (Nat × Nat)) :
    (placeMines g s).rows = g.rows := by
  unfold placeMines
  exact (foldl_setMine_struct s g).1

lemma placeMines_cols (g : Game) (s : List (Nat × Nat)) :
    (placeMines g s).cols = g.cols := by
  unfold placeMines
  exact (foldl_setMine_struct s g).2.1

lemma placeMines_mines (g : Game) (s : List (Nat × Nat)) :
    (placeMines g s).mines = g.mines := by
  unfold placeMines
  exact (foldl_setMine_struct s g).2.2.1

lemma placeMines_placed (g : Game) (s : List (Nat × Nat)) :
    (placeMines g s).mines_placed = true := rfl

lemma WF_placeMines (g : Game) (s : List (Nat × Nat)) : WF (placeMines g s) := by
  unfold placeMines
  have h := WF_computeAdjacentCounts (s.foldl (fun acc p => setCell acc p.1 p.2
    (fun cl => { cl with is_mine := true })) g)
  exact h

lemma getCell_placeMines (g : Game) (s : List (Nat × Nat)) (hwf : WF g)
    (r c : Nat) (hr : r < g.rows) (hc : c < g.cols) :
    (getCell (placeMines g s) r c).is_mine
        = (decide ((r, c) ∈ s) || (getCell g r c).is_mine) ∧
    (getCell (placeMines g s) r c).is_revealed = (getCell g r c).is_revealed ∧
    (getCell (placeMines g s) r c).is_flagged = (getCell g r c).is_flagged := by
  unfold placeMines
  set g1 := s.foldl (fun acc p => setCell acc p.1 p.2
    (fun cl => { cl with is_mine := true })) g with hg1
  obtain ⟨hr1, hc1, _, _, _⟩ := foldl_setMine_struct s g
  obtain ⟨m1, m2, m3, _⟩ := foldl_setMine_getCell s g hwf r c hr hc
  have hrg1 : r < g1.rows := by rw [hr1]; exact hr
  have hcg1 : c < g1.cols := by rw [hc1]; exact hc
  obtain ⟨a1, a2, a3, _⟩ := getCell_computeAdjacentCounts_fields g1 r c hrg1 hcg1
  have hmp : getCell { computeAdjacentCounts g1 with mines_placed := true } r c
      = getCell (computeAdjacentCounts g1) r c := rfl
  refine ⟨?_, ?_, ?_⟩
  · rw [hmp, a1, m1]
  · rw [hmp, a2, m2]
  · rw [hmp, a3, m3]

lemma adjCount_congr (g g' : Game) (h1 : g'.rows = g.rows) (h2 : g'.cols = g.cols)
    (hm : ∀ r c, r < g.rows → c < g.cols →
      (getCell g' r c).is_mine = (getCell g r c).is_mine)
    (r c : Nat) : adjCount g' r c = adjCount g r c := by
  unfold adjCount
  rw [neighbors_dims_congr g g' r c h1 h2]
  apply congrArg List.length
  apply List.filter_congr
  intro p hp
  obtain ⟨hb1, hb2⟩ := mem_neighbors_bounds g r c p hp
  exact hm p.1 p.2 hb1 hb2

lemma countMines_congr (g g' : Game) (h1 : g'.rows = g.rows) (h2 : g'.cols = g.cols)
    (hm : ∀ r c, r < g.rows → c < g.cols →
      (getCell g' r c).is_mine = (getCell g r c).is_mine) :
    countMines g' = countMines g := by
  unfold countMines
  rw [h1, h2]
  apply congrArg List.length
  apply List.filter_congr
  intro p hp
  rw [mem_gridCells] at hp
  exact hm p.1 p.2 hp.1 hp.2

lemma minesInv_congr (g g' : Game) (h1 : g'.rows = g.rows) (h2 : g'.cols = g.cols)
    (h3 : g'.mines = g.mines)
    (hm : ∀ r c, r < g.rows → c < g.cols →
      (getCell g' r c).is_mine = (getCell g r c).is_mine)
    (ha : ∀ r c, r < g.rows → c < g.cols →
      (getCell g' r c).adjacent_mines = (getCell g r c).adjacent_mines)
    (hinv : MinesInv g) : MinesInv g' := by
  obtain ⟨hcount, hadj⟩ := hinv
  constructor
  · rw [countMines_congr g g' h1 h2 hm, h3, hcount]
  · intro r c hr hc hmine
    rw [h1] at hr
    rw [h2] at hc
    rw [hm r c hr hc] at hmine
    rw [ha r c hr hc, adjCount_congr g g' h1 h2 hm r c]
    exact hadj r c hr hc hmine

lemma getCell_placeMines_eq_compute (g : Game) (sample : List (Nat × Nat)) (r c : Nat) :
    getCell (placeMines g sample) r c =
      getCell (computeAdjacentCounts (sample.foldl (fun acc p => setCell acc p.1 p.2
        (fun cl => { cl with is_mine := true })) g)) r c := rfl

lemma placeMines_adjacent (g : Game) (sample : List (Nat × Nat)) (r c : Nat)
    (hr : r < g.rows) (hc : c < g.cols)
    (hnomine : (getCell (placeMines g sample) r c).is_mine = false) :
    (getCell (placeMines g sample) r c).adjacent_mines
      = adjCount (placeMines g sample) r c := by
  set g1 := sample.foldl (fun acc p => setCell acc p.1 p.2
    (fun cl => { cl with is_mine := true })) g with hg1
  obtain ⟨e1, e2, _, _, _⟩ := foldl_setMine_struct sample g
  have hr1 : r < g1.rows := by rw [← hg1] at e1; rw [e1]; exact hr
  have hc1 : c < g1.cols := by rw [← hg1] at e2; rw [e2]; exact hc
  have he1 : g1.rows = g.rows := by rw [← hg1] at e1; exact e1
  have he2 : g1.cols = g.cols := by rw [← hg1] at e2; exact e2
  obtain ⟨a1, _, _, a4⟩ := getCell_computeAdjacentCounts_fields g1 r c hr1 hc1
  have hq : getCell (placeMines g sample) r c = getCell (computeAdjacentCounts g1) r c :=
    getCell_placeMines_eq_compute g sample r c
  have hmine1 : (getCell g1 r c).is_mine = false := by
    rw [hq, a1] at hnomine
    exact hnomine
  have hcongr : adjCount (placeMines g sample) r c = adjCount g1 r c := by
    apply adjCount_congr g1 (placeMines g sample)
    · rw [placeMines_rows, he1]
    · rw [placeMines_cols, he2]
    · intro r' c' hr' hc'
      rw [getCell_placeMines_eq_compute g sample r' c', ← hg1]
      exact (getCell_computeAdjacentCounts_fields g1 r' c' hr' hc').1
  rw [hq, a4, hmine1, if_neg (by simp), hcongr]

lemma placeMines_minesInv (g : Game) (sample : List (Nat × Nat)) (hwf : WF g)
    (hfresh : ∀ r c, r < g.rows → c < g.cols → (getCell g r c).is_mine = false)
    (hnd : sample.Nodup) (hlen : sample.length = g.mines)
    (hmem : ∀ p ∈ sample, p.1 < g.rows ∧ p.2 < g.cols) :
    MinesInv (placeMines g sample) := by
  have hrows := placeMines_rows g sample
  have hcols := placeMines_cols g sample
  have hmine : ∀ r c, r < g.rows → c < g.cols →
      (getCell (placeMines g sample) r c).is_mine = decide ((r, c) ∈ sample) := by
    intro r c hr hc
    rw [(getCell_placeMines g sample hwf r c hr hc).1, hfresh r c hr hc]
    simp
  constructor
  · unfold countMines
    rw [hrows, hcols, placeMines_mines]
    have hco : (gridCells g.rows g.cols).filter
          (fun p => (getCell (placeMines g sample) p.1 p.2).is_mine)
        = (gridCells g.rows g.cols).filter (fun p => decide (p ∈ sample)) := by
      apply List.filter_congr
      intro p hp
      rw [mem_gridCells] at hp
      have hpp : p = (p.1, p.2) := rfl
      rw [hmine p.1 p.2 hp.1 hp.2, ← hpp]
    rw [hco, length_filter_mem _ _ (nodup_gridCells _ _) hnd
      (fun p hp => (mem_gridCells _ _ p).2 (hmem p hp)), hlen]
  · intro r c hr hc hnomine
    rw [hrows] at hr
    rw [hcols] at hc
    exact placeMines_adjacent g sample r c hr hc hnomine

lemma revealCellAt_rows (g : Game) (p : Nat × Nat) : (revealCellAt g p).rows = g.rows := rfl

lemma revealCellAt_cols (g : Game) (p : Nat × Nat) : (revealCellAt g p).cols = g.cols := rfl

lemma revealCellAt_mines (g : Game) (p : Nat × Nat) : (revealCellAt g p).mines = g.mines := rfl

lemma revealCellAt_placed (g : Game) (p : Nat × Nat) :
    (revealCellAt g p).mines_placed = g.mines_placed := rfl

lemma WF_revealCellAt (g : Game) (p : Nat × Nat) (hwf : WF g) : WF (revealCellAt g p) :=
  WF_setCell g p.1 p.2 _ hwf

lemma getCell_revealCellAt_fields (g : Game) (p : Nat × Nat) (r c : Nat) :
    (getCell (revealCellAt g p) r c).is_mine = (getCell g r c).is_mine ∧
    (getCell (revealCellAt g p) r c).is_flagged = (getCell g r c).is_flagged ∧
    (getCell (revealCellAt g p) r c).adjacent_mines = (getCell g r c).adjacent_mines := by
  rcases getCell_setCell_cases g p.1 p.2 r c
      (fun cl => { cl with is_revealed := true }) with h | h <;>
    rw [revealCellAt, h] <;> exact ⟨rfl, rfl, rfl⟩

lemma revealCellAt_mono (g : Game) (p : Nat × Nat) (r c : Nat)
    (h : (getCell g r c).is_revealed = true) :
    (getCell (revealCellAt g p) r c).is_revealed = true := by
  rcases getCell_setCell_cases g p.1 p.2 r c
      (fun cl => { cl with is_revealed := true }) with hc | hc
  · rw [revealCellAt, hc]
    exact h
  · rw [revealCellAt, hc]

lemma revealCellAt_rev_cases (g : Game) (p : Nat × Nat) (r c : Nat)
    (h : (getCell (revealCellAt g p) r c).is_revealed = true) :
    (getCell g r c).is_revealed = true ∨ (r, c) = p := by
  by_cases hp : (r, c) = p
  · exact Or.inr hp
  · left
    rw [revealCellAt, getCell_setCell_ne g p.1 p.2 r c _ (by
      intro hh
      exact hp (by
        have hpp : p = (p.1, p.2) := rfl
        rw [hpp, ← hh]))] at h
    exact h

lemma getCell_revealCellAt_self (g : Game) (p : Nat × Nat) (hwf : WF g)
    (h1 : p.1 < g.rows) (h2 : p.2 < g.cols) :
    getCell (revealCellAt g p) p.1 p.2 = { getCell g p.1 p.2 with is_revealed := true } := by
  rw [revealCellAt]
  exact getCell_setCell_self g p.1 p.2 _ (by rw [hwf.1]; exact h1)
    (by rw [hwf.2 p.1 h1]; exact h2)

lemma processNeighbors_skip (g : Game) (p : Nat × Nat) (rest st vis : List (Nat × Nat))
    (hskip : ((getCell g p.1 p.2).is_revealed || (getCell g p.1 p.2).is_flagged ||
      (getCell g p.1 p.2).is_mine) = true) :
    processNeighbors g (p :: rest) st vis = processNeighbors g rest st vis := by
  rw [processNeighbors]
  simp only [hskip, if_true]

lemma processNeighbors_push (g : Game) (p : Nat × Nat) (rest st vis : List (Nat × Nat))
    (hskip : ¬ ((getCell g p.1 p.2).is_revealed || (getCell g p.1 p.2).is_flagged ||
      (getCell g p.1 p.2).is_mine) = true)
    (hz : (getCell g p.1 p.2).adjacent_mines = 0) (hnv : p ∉ vis) :
    processNeighbors g (p :: rest) st vis
      = processNeighbors (revealCellAt g p) rest (p :: st) (p :: vis) := by
  rw [processNeighbors]
  rw [if_neg hskip, if_pos ⟨hz, hnv⟩]

lemma processNeighbors_open (g : Game) (p : Nat × Nat) (rest st vis : List (Nat × Nat))
    (hskip : ¬ ((getCell g p.1 p.2).is_revealed || (getCell g p.1 p.2).is_flagged ||
      (getCell g p.1 p.2).is_mine) = true)
    (hnp : ¬ ((getCell g p.1 p.2).adjacent_mines = 0 ∧ p ∉ vis)) :
    processNeighbors g (p :: rest) st vis
      = processNeighbors (revealCellAt g p) rest st vis := by
  rw [processNeighbors]
  rw [if_neg hskip, if_neg hnp]

lemma processNeighbors_struct (ps : List (Nat × Nat)) :
    ∀ (g : Game) (st vis : List (Nat × Nat)),
    ∃ news : List (Nat × Nat),
      processNeighbors g ps st vis
        = ((processNeighbors g ps st vis).1, news ++ st, news ++ vis) ∧
      news.Nodup ∧ (∀ p ∈ news, p ∉ vis ∧ p ∈ ps) ∧
      (processNeighbors g ps st vis).1.rows = g.rows ∧
      (processNeighbors g ps st vis).1.cols = g.cols ∧
      (processNeighbors g ps st vis).1.mines = g.mines ∧
      (processNeighbors g ps st vis).1.mines_placed = g.mines_placed ∧
      (∀ r c, (getCell (processNeighbors g ps st vis).1 r c).is_mine
          = (getCell g r c).is_mine ∧
        (getCell (processNeighbors g ps st vis).1 r c).is_flagged
          = (getCell g r c).is_flagged ∧
        (getCell (processNeighbors g ps st vis).1 r c).adjacent_mines
          = (getCell g r c).adjacent_mines) ∧
      (∀ r c, (getCell g r c).is_revealed = true →
        (getCell (processNeighbors g ps st vis).1 r c).is_revealed = true) ∧
      (WF g → WF (processNeighbors g ps st vis).1) := by
  induction ps with
  | nil =>
    intro g st vis
    exact ⟨[], rfl, List.nodup_nil, by simp, rfl, rfl, rfl, rfl,
      fun r c => ⟨rfl, rfl, rfl⟩, fun r c h => h, fun h => h⟩
  | cons p rest ih =>
    intro g st vis
    by_cases hskip : ((getCell g p.1 p.2).is_revealed || (getCell g p.1 p.2).is_flagged ||
        (getCell g p.1 p.2).is_mine) = true
    · obtain ⟨news, h1, h2, h3, h4, h5, h6, h7, h8, h9, h10⟩ := ih g st vis
      rw [processNeighbors_skip g p rest st vis hskip]
      exact ⟨news, h1, h2, fun q hq => ⟨(h3 q hq).1, List.mem_cons_of_mem p (h3 q hq).2⟩,
        h4, h5, h6, h7, h8, h9, h10⟩
    · by_cases hpush : (getCell g p.1 p.2).adjacent_mines = 0 ∧ p ∉ vis
      · rw [processNeighbors_push g p rest st vis hskip hpush.1 hpush.2]
        obtain ⟨news, h1, h2, h3, h4, h5, h6, h7, h8, h9, h10⟩ :=
          ih (revealCellAt g p) (p :: st) (p :: vis)
        refine ⟨news ++ [p], ?_, ?_, ?_, ?_, ?_, ?_, ?_, ?_, ?_, ?_⟩
        · rw [h1]
          simp
        · rw [List.nodup_append]
          refine ⟨h2, List.nodup_singleton p, ?_⟩
          intro q hq hq'
          rw [List.mem_singleton] at hq'
          subst hq'
          exact (h3 q hq).1 (List.mem_cons_self q vis)
        · intro q hq
          rw [List.mem_append, List.mem_singleton] at hq
          rcases hq with hq | hq
          · obtain ⟨hnv, hmem⟩ := h3 q hq
            refine ⟨fun hv => hnv (List.mem_cons_of_mem p hv), List.mem_cons_of_mem p hmem⟩
          · subst hq
            exact ⟨hpush.2, List.mem_cons_self q rest⟩
        · rw [h4, revealCellAt_rows]
        · rw [h5, revealCellAt_cols]
        · rw [h6, revealCellAt_mines]
        · rw [h7, revealCellAt_placed]
        · intro r c
          obtain ⟨f1, f2, f3⟩ := h8 r c
          obtain ⟨e1, e2, e3⟩ := getCell_revealCellAt_fields g p r c
          exact ⟨by rw [f1, e1], by rw [f2, e2], by rw [f3, e3]⟩
        · intro r c hrev
          exact h9 r c (revealCellAt_mono g p r c hrev)
        · intro hwf
          exact h10 (WF_revealCellAt g p hwf)
      · rw [processNeighbors_open g p rest st vis hskip hpush]
        obtain ⟨news, h1, h2, h3, h4, h5, h6, h7, h8, h9, h10⟩ :=
          ih (revealCellAt g p) st vis
        refine ⟨news, h1, h2,
          fun q hq => ⟨(h3 q hq).1, List.mem_cons_of_mem p (h3 q hq).2⟩, ?_, ?_, ?_, ?_, ?_, ?_, ?_⟩
        · rw [h4, revealCellAt_rows]
        · rw [h5, revealCellAt_cols]
        · rw [h6, revealCellAt_mines]
        · rw [h7, revealCellAt_placed]
        · intro r c
          obtain ⟨f1, f2, f3⟩ := h8 r c
          obtain ⟨e1, e2, e3⟩ := getCell_revealCellAt_fields g p r c
          exact ⟨by rw [f1, e1], by rw [f2, e2], by rw [f3, e3]⟩
        · intro r c hrev
          exact h9 r c (revealCellAt_mono g p r c hrev)
        · intro hwf
          exact h10 (WF_revealCellAt g p hwf)

lemma floodLoop_unfold (g : Game) (cur : Nat × Nat) (rest vis : List (Nat × Nat)) (fuel : Nat) :
    floodLoop (fuel + 1) g (cur :: rest) vis =
      floodLoop fuel (processNeighbors g (neighbors g cur.1 cur.2) rest vis).1
        (processNeighbors g (neighbors g cur.1 cur.2) rest vis).2.1
        (processNeighbors g (neighbors g cur.1 cur.2) rest vis).2.2 := by
  rw [floodLoop]

lemma floodLoop_frame (fuel : Nat) : ∀ (g : Game) (st vis : List (Nat × Nat)),
    (floodLoop fuel g st vis).rows = g.rows ∧
    (floodLoop fuel g st vis).cols = g.cols ∧
    (floodLoop fuel g st vis).mines = g.mines ∧
    (floodLoop fuel g st vis).mines_placed = g.mines_placed ∧
    (∀ r c, (getCell (floodLoop fuel g st vis) r c).is_mine = (getCell g r c).is_mine ∧
      (getCell (floodLoop fuel g st vis) r c).is_flagged = (getCell g r c).is_flagged ∧
      (getCell (floodLoop fuel g st vis) r c).adjacent_mines
        = (getCell g r c).adjacent_mines) ∧
    (∀ r c, (getCell g r c).is_revealed = true →
      (getCell (floodLoop fuel g st vis) r c).is_revealed = true) ∧
    (WF g → WF (floodLoop fuel g st vis)) := by
  induction fuel with
  | zero =>
    intro g st vis
    exact ⟨rfl, rfl, rfl, rfl, fun r c => ⟨rfl, rfl, rfl⟩, fun r c h => h, fun h => h⟩
  | succ n ih =>
    intro g st vis
    match st with
    | [] =>
      exact ⟨rfl, rfl, rfl, rfl, fun r c => ⟨rfl, rfl, rfl⟩, fun r c h => h, fun h => h⟩
    | cur :: rest =>
      rw [floodLoop_unfold]
      obtain ⟨news, _, _, _, p4, p5, p6, p7, p8, p9, p10⟩ :=
        processNeighbors_struct (neighbors g cur.1 cur.2) g rest vis
      obtain ⟨q4, q5, q6, q7, q8, q9, q10⟩ := ih
        (processNeighbors g (neighbors g cur.1 cur.2) rest vis).1
        (processNeighbors g (neighbors g cur.1 cur.2) rest vis).2.1
        (processNeighbors g (neighbors g cur.1 cur.2) rest vis).2.2
      refine ⟨by rw [q4, p4], by rw [q5, p5], by rw [q6, p6], by rw [q7, p7],
        ?_, ?_, ?_⟩
      · intro r c
        obtain ⟨f1, f2, f3⟩ := q8 r c
        obtain ⟨e1, e2, e3⟩ := p8 r c
        exact ⟨by rw [f1, e1], by rw [f2, e2], by rw [f3, e3]⟩
      · intro r c hrev
        exact q9 r c (p9 r c hrev)
      · intro hwf
        exact q10 (p10 hwf)

lemma reveal_oob (g : Game) (sample : List (Nat × Nat)) (row col : Int)
    (hv : validPos g row col = false) :
    reveal g sample row col = .error .outOfBounds := by
  unfold reveal
  rw [if_neg (by rw [hv]; exact Bool.false_ne_true)]

lemma toggle_flag_oob (g : Game) (row col : Int)
    (hv : validPos g row col = false) :
    toggle_flag g row col = .error .outOfBounds := by
  unfold toggle_flag
  rw [if_neg (by rw [hv]; exact Bool.false_ne_true)]

lemma validPos_placeMines (g : Game) (sample : List (Nat × Nat)) (row col : Int) :
    validPos (placeMines g sample) row col = validPos g row col := by
  unfold validPos
  rw [placeMines_rows, placeMines_cols]

lemma reveal_unplaced_shift (g : Game) (sample : List (Nat × Nat)) (row col : Int)
    (hv : validPos g row col = true) (hnp : g.mines_placed = false) :
    reveal g sample row col = reveal (placeMines g sample) sample row col := by
  have hv' : validPos (placeMines g sample) row col = true := by
    rw [validPos_placeMines]
    exact hv
  unfold reveal
  rw [if_pos hv, if_pos hv', hnp]
  rw [if_neg (show ¬(false = true) from Bool.false_ne_true)]
  rw [if_pos (placeMines_placed g sample)]

lemma reveal_placed_noop (g : Game) (sample : List (Nat × Nat)) (row col : Int)
    (hv : validPos g row col = true) (hpl : g.mines_placed = true)
    (hfr : ((getCell g row.toNat col.toNat).is_flagged ||
      (getCell g row.toNat col.toNat).is_revealed) = true) :
    reveal g sample row col = .ok (g, true) := by
  unfold reveal
  rw [if_pos hv, if_pos hpl]
  simp only []
  rw [if_pos hfr]

lemma reveal_placed_mine (g : Game) (sample : List (Nat × Nat)) (row col : Int)
    (hv : validPos g row col = true) (hpl : g.mines_placed = true)
    (hfr : ¬ ((getCell g row.toNat col.toNat).is_flagged ||
      (getCell g row.toNat col.toNat).is_revealed) = true)
    (hm : (getCell g row.toNat col.toNat).is_mine = true) :
    reveal g sample row col = .ok (revealCellAt g (row.toNat, col.toNat), false) := by
  unfold reveal
  rw [if_pos hv, if_pos hpl]
  simp only []
  rw [if_neg hfr, if_pos hm]

lemma reveal_placed_flood (g : Game) (sample : List (Nat × Nat)) (row col : Int)
    (hv : validPos g row col = true) (hpl : g.mines_placed = true)
    (hfr : ¬ ((getCell g row.toNat col.toNat).is_flagged ||
      (getCell g row.toNat col.toNat).is_revealed) = true)
    (hm : ¬ (getCell g row.toNat col.toNat).is_mine = true)
    (hz : (getCell g row.toNat col.toNat).adjacent_mines = 0) :
    reveal g sample row col
      = .ok (floodReveal (revealCellAt g (row.toNat, col.toNat)) row.toNat col.toNat, true) := by
  unfold reveal
  rw [if_pos hv, if_pos hpl]
  simp only []
  rw [if_neg hfr, if_neg hm, if_pos hz]

lemma reveal_placed_plain (g : Game) (sample : List (Nat × Nat)) (row col : Int)
    (hv : validPos g row col = true) (hpl : g.mines_placed = true)
    (hfr : ¬ ((getCell g row.toNat col.toNat).is_flagged ||
      (getCell g row.toNat col.toNat).is_revealed) = true)
    (hm : ¬ (getCell g row.toNat col.toNat).is_mine = true)
    (hz : ¬ (getCell g row.toNat col.toNat).adjacent_mines = 0) :
    reveal g sample row col = .ok (revealCellAt g (row.toNat, col.toNat), true) := by
  unfold reveal
  rw [if_pos hv, if_pos hpl]
  simp only []
  rw [if_neg hfr, if_neg hm, if_neg hz]

lemma reveal_placed_frame (g : Game) (sample : List (Nat × Nat)) (row col : Int)
    (g' : Game) (b : Bool) (hpl : g.mines_placed = true)
    (h : reveal g sample row col = .ok (g', b)) :
    g'.rows = g.rows ∧ g'.cols = g.cols ∧ g'.mines = g.mines ∧
    g'.mines_placed = true ∧
    (∀ r c, (getCell g' r c).is_mine = (getCell g r c).is_mine ∧
      (getCell g' r c).is_flagged = (getCell g r c).is_flagged ∧
      (getCell g' r c).adjacent_mines = (getCell g r c).adjacent_mines) ∧
    (∀ r c, (getCell g r c).is_revealed = true →
      (getCell g' r c).is_revealed = true) ∧
    (WF g → WF g') := by
  by_cases hv : validPos g row col = true
  · by_cases hfr : ((getCell g row.toNat col.toNat).is_flagged ||
        (getCell g row.toNat col.toNat).is_revealed) = true
    · rw [reveal_placed_noop g sample row col hv hpl hfr] at h
      cases h
      exact ⟨rfl, rfl, rfl, hpl, fun r c => ⟨rfl, rfl, rfl⟩, fun r c hh => hh, fun hh => hh⟩
    · by_cases hm : (getCell g row.toNat col.toNat).is_mine = true
      · rw [reveal_placed_mine g sample row col hv hpl hfr hm] at h
        cases h
        refine ⟨rfl, rfl, rfl, by rw [revealCellAt_placed]; exact hpl,
          getCell_revealCellAt_fields g _, revealCellAt_mono g _, WF_revealCellAt g _⟩
      · by_cases hz : (getCell g row.toNat col.toNat).adjacent_mines = 0
        · rw [reveal_placed_flood g sample row col hv hpl hfr hm hz] at h
          cases h
          set g2 := revealCellAt g (row.toNat, col.toNat) with hg2
          obtain ⟨q1, q2, q3, q4, q5, q6, q7⟩ :=
            floodLoop_frame (g2.rows * g2.cols) g2 [(row.toNat, col.toNat)]
              [(row.toNat, col.toNat)]
          refine ⟨?_, ?_, ?_, ?_, ?_, ?_, ?_⟩
          · rw [show floodReveal g2 row.toNat col.toNat
              = floodLoop (g2.rows * g2.cols) g2 [(row.toNat, col.toNat)]
                [(row.toNat, col.toNat)] from rfl, q1, hg2, revealCellAt_rows]
          · rw [show floodReveal g2 row.toNat col.toNat
              = floodLoop (g2.rows * g2.cols) g2 [(row.toNat, col.toNat)]
                [(row.toNat, col.toNat)] from rfl, q2, hg2, revealCellAt_cols]
          · rw [show floodReveal g2 row.toNat col.toNat
              = floodLoop (g2.rows * g2.cols) g2 [(row.toNat, col.toNat)]
                [(row.toNat, col.toNat)] from rfl, q3, hg2, revealCellAt_mines]
          · rw [show floodReveal g2 row.toNat col.toNat
              = floodLoop (g2.rows * g2.cols) g2 [(row.toNat, col.toNat)]
                [(row.toNat, col.toNat)] from rfl, q4, hg2, revealCellAt_placed]
            exact hpl
          · intro r c
            obtain ⟨f1, f2, f3⟩ := q5 r c
            obtain ⟨e1, e2, e3⟩ := getCell_revealCellAt_fields g (row.toNat, col.toNat) r c
            rw [← hg2] at e1 e2 e3
            exact ⟨by rw [show floodReveal g2 row.toNat col.toNat
                = floodLoop (g2.rows * g2.cols) g2 [(row.toNat, col.toNat)]
                  [(row.toNat, col.toNat)] from rfl, f1, e1],
              by rw [show floodReveal g2 row.toNat col.toNat
                = floodLoop (g2.rows * g2.cols) g2 [(row.toNat, col.toNat)]
                  [(row.toNat, col.toNat)] from rfl, f2, e2],
              by rw [show floodReveal g2 row.toNat col.toNat
                = floodLoop (g2.rows * g2.cols) g2 [(row.toNat, col.toNat)]
                  [(row.toNat, col.toNat)] from rfl, f3, e3]⟩
          · intro r c hrev
            exact q6 r c (by
              have := revealCellAt_mono g (row.toNat, col.toNat) r c hrev
              rw [← hg2] at this
              exact this)
          · intro hwf
            exact q7 (by
              have := WF_revealCellAt g (row.toNat, col.toNat) hwf
              rw [← hg2] at this
              exact this)
        · rw [reveal_placed_plain g sample row col hv hpl hfr hm hz] at h
          cases h
          refine ⟨rfl, rfl, rfl, by rw [revealCellAt_placed]; exact hpl,
            getCell_revealCellAt_fields g _, revealCellAt_mono g _, WF_revealCellAt g _⟩
  · rw [reveal_oob g sample row col (by
      cases hb : validPos g row col
      · rfl
      · exact absurd hb hv)] at h
    exact absurd h (by simp)

lemma toggle_flag_opened (g : Game) (row col : Int)
    (hv : validPos g row col = true)
    (hrev : (getCell g row.toNat col.toNat).is_revealed = true) :
    toggle_flag g row col = .ok g := by
  unfold toggle_flag
  rw [if_pos hv]
  simp only []
  rw [if_pos hrev]

lemma toggle_flag_unopened (g : Game) (row col : Int)
    (hv : validPos g row col = true)
    (hrev : ¬ (getCell g row.toNat col.toNat).is_revealed = true) :
    toggle_flag g row col = .ok (setCell g row.toNat col.toNat
      (fun cl => { cl with is_flagged := !cl.is_flagged })) := by
  unfold toggle_flag
  rw [if_pos hv]
  simp only []
  rw [if_neg hrev]

lemma getCell_flagFlip_fields (g : Game) (r c r' c' : Nat) :
    (getCell (setCell g r c (fun cl => { cl with is_flagged := !cl.is_flagged })) r' c').is_mine
        = (getCell g r' c').is_mine ∧
    (getCell (setCell g r c (fun cl => { cl with is_flagged := !cl.is_flagged })) r' c').is_revealed
        = (getCell g r' c').is_revealed ∧
    (getCell (setCell g r c (fun cl => { cl with is_flagged := !cl.is_flagged })) r' c').adjacent_mines
        = (getCell g r' c').adjacent_mines := by
  rcases getCell_setCell_cases g r c r' c'
      (fun cl => { cl with is_flagged := !cl.is_flagged }) with h | h <;>
    rw [h] <;> exact ⟨rfl, rfl, rfl⟩

lemma toggle_flag_frame (g : Game) (row col : Int) (g' : Game)
    (h : toggle_flag g row col = .ok g') :
    g'.rows = g.rows ∧ g'.cols = g.cols ∧ g'.mines = g.mines ∧
    g'.mines_placed = g.mines_placed ∧
    (∀ r c, (getCell g' r c).is_mine = (getCell g r c).is_mine ∧
      (getCell g' r c).is_revealed = (getCell g r c).is_revealed ∧
      (getCell g' r c).adjacent_mines = (getCell g r c).adjacent_mines) ∧
    (WF g → WF g') := by
  by_cases hv : validPos g row col = true
  · by_cases hrev : (getCell g row.toNat col.toNat).is_revealed = true
    · rw [toggle_flag_opened g row col hv hrev] at h
      cases h
      exact ⟨rfl, rfl, rfl, rfl, fun r c => ⟨rfl, rfl, rfl⟩, fun hh => hh⟩
    · rw [toggle_flag_unopened g row col hv hrev] at h
      cases h
      exact ⟨rfl, rfl, rfl, rfl, getCell_flagFlip_fields g row.toNat col.toNat,
        WF_setCell g row.toNat col.toNat _⟩
  · rw [toggle_flag_oob g row col (by
      cases hb : validPos g row col
      · rfl
      · exact absurd hb hv)] at h
    exact absurd h (by simp)

lemma floodLoop_fuel_le (R C : Nat) : ∀ f1 : Nat, ∀ (g : Game) (st vis : List (Nat × Nat))
    (f2 : Nat), g.rows = R → g.cols = C → vis.Nodup →
    (∀ p ∈ vis, p.1 < R ∧ p.2 < C) →
    Phi (R * C) st vis ≤ f1 → f1 ≤ f2 →
    floodLoop f1 g st vis = floodLoop f2 g st vis := by
  intro f1
  induction f1 with
  | zero =>
    intro g st vis f2 hR hC hnd hb hphi hle
    have hst : st = [] := by
      unfold Phi at hphi
      cases st with
      | nil => rfl
      | cons a l => simp at hphi
    subst hst
    cases f2 with
    | zero => rfl
    | succ m => rfl
  | succ n ih =>
    intro g st vis f2 hR hC hnd hb hphi hle
    match st with
    | [] =>
      cases f2 with
      | zero => omega
      | succ m => rfl
    | cur :: rest =>
      cases f2 with
      | zero => omega
      | succ m =>
        rw [floodLoop_unfold, floodLoop_unfold]
        obtain ⟨news, h1, h2, h3, p4, p5, _, _, _, _, _⟩ :=
          processNeighbors_struct (neighbors g cur.1 cur.2) g rest vis
        have e21 : (processNeighbors g (neighbors g cur.1 cur.2) rest vis).2.1
            = news ++ rest := by rw [h1]
        have e22 : (processNeighbors g (neighbors g cur.1 cur.2) rest vis).2.2
            = news ++ vis := by rw [h1]
        rw [e21, e22]
        have hnd' : (news ++ vis).Nodup := by
          rw [List.nodup_append]
          exact ⟨h2, hnd, fun a ha => (h3 a ha).1⟩
        have hb' : ∀ p ∈ news ++ vis, p.1 < R ∧ p.2 < C := by
          intro p hp
          rw [List.mem_append] at hp
          rcases hp with hp | hp
          · obtain ⟨hb1, hb2⟩ := mem_neighbors_bounds g cur.1 cur.2 p (h3 p hp).2
            rw [hR] at hb1
            rw [hC] at hb2
            exact ⟨hb1, hb2⟩
          · exact hb p hp
        have hlen : (news ++ vis).length ≤ R * C :=
          nodup_bounds_length_le R C (news ++ vis) hnd' hb'
        have hphi' : Phi (R * C) (news ++ rest) (news ++ vis) ≤ n := by
          unfold Phi at hphi ⊢
          rw [List.length_append, List.length_append]
          rw [List.length_append] at hlen
          simp only [List.length_cons] at hphi
          omega
        exact ih (processNeighbors g (neighbors g cur.1 cur.2) rest vis).1
          (news ++ rest) (news ++ vis) m (by rw [p4, hR]) (by rw [p5, hC])
          hnd' hb' hphi' (by omega)

lemma floodReveal_fuel (g : Game) (row col : Nat)
    (hr : row < g.rows) (hc : col < g.cols) :
    ∀ fuel, g.rows * g.cols ≤ fuel →
      floodLoop fuel g [(row, col)] [(row, col)] = floodReveal g row col := by
  intro fuel hfuel
  have hpos : 1 ≤ g.rows * g.cols :=
    Nat.mul_pos (by omega) (by omega)
  unfold floodReveal
  symm
  apply floodLoop_fuel_le g.rows g.cols (g.rows * g.cols) g
    [(row, col)] [(row, col)] fuel rfl rfl (List.nodup_singleton _)
  · intro p hp
    rw [List.mem_singleton] at hp
    subst hp
    exact ⟨hr, hc⟩
  · unfold Phi
    simp only [List.length_singleton]
    omega
  · exact hfuel

lemma ZReach_zcell (G : Game) (s p : Nat × Nat) (hzs : zcell G s)
    (h : ZReach G s p) : zcell G p := by
  induction h with
  | base => exact hzs
  | step h1 h2 h3 h4 => exact h4

lemma skip_false_fields (G g : Game) (p : Nat × Nat)
    (hframe : ∀ r c, (getCell g r c).is_mine = (getCell G r c).is_mine ∧
      (getCell g r c).is_flagged = (getCell G r c).is_flagged ∧
      (getCell g r c).adjacent_mines = (getCell G r c).adjacent_mines)
    (hmono : ∀ r c, (getCell G r c).is_revealed = true →
      (getCell g r c).is_revealed = true)
    (hskip : ¬ ((getCell g p.1 p.2).is_revealed || (getCell g p.1 p.2).is_flagged ||
      (getCell g p.1 p.2).is_mine) = true) :
    openableG G p ∧ (getCell g p.1 p.2).is_revealed = false := by
  have h3 : (getCell g p.1 p.2).is_revealed = false ∧
      (getCell g p.1 p.2).is_flagged = false ∧
      (getCell g p.1 p.2).is_mine = false := by
    simpa [not_or, and_assoc] using hskip
  obtain ⟨hrev, hfl, hmi⟩ := h3
  have hGrev : (getCell G p.1 p.2).is_revealed = false := by
    cases hx : (getCell G p.1 p.2).is_revealed
    · rfl
    · rw [hmono p.1 p.2 hx] at hrev
      exact absurd hrev (by simp)
  obtain ⟨f1, f2, _⟩ := hframe p.1 p.2
  refine ⟨⟨hGrev, ?_, ?_⟩, hrev⟩
  · rw [← f2, hfl]
  · rw [← f1, hmi]

lemma processNeighbors_rich (G : Game) (ps : List (Nat × Nat)) :
    ∀ (g : Game) (st vis : List (Nat × Nat)),
    (∀ r c, (getCell g r c).is_mine = (getCell G r c).is_mine ∧
      (getCell g r c).is_flagged = (getCell G r c).is_flagged ∧
      (getCell g r c).adjacent_mines = (getCell G r c).adjacent_mines) →
    (∀ r c, (getCell G r c).is_revealed = true →
      (getCell g r c).is_revealed = true) →
    WF g → g.rows = G.rows → g.cols = G.cols →
    (∀ p ∈ ps, p.1 < G.rows ∧ p.2 < G.cols) →
    ∃ news : List (Nat × Nat),
      processNeighbors g ps st vis
        = ((processNeighbors g ps st vis).1, news ++ st, news ++ vis) ∧
      (∀ p ∈ news, p ∉ vis ∧ p ∈ ps ∧ zcell G p) ∧
      (∀ r c, (getCell (processNeighbors g ps st vis).1 r c).is_revealed = true →
        (getCell g r c).is_revealed = true ∨ ((r, c) ∈ ps ∧ openableG G (r, c))) ∧
      (∀ p ∈ ps, openableG G p →
        (getCell (processNeighbors g ps st vis).1 p.1 p.2).is_revealed = true) ∧
      (∀ p, zcell G p →
        (getCell (processNeighbors g ps st vis).1 p.1 p.2).is_revealed = true →
        (getCell g p.1 p.2).is_revealed = true ∨ p ∈ news ∨ p ∈ vis) := by
  induction ps with
  | nil =>
    intro g st vis _ _ _ _ _ _
    exact ⟨[], rfl, by simp, fun r c h => Or.inl h,
      by simp, fun p _ h => Or.inl h⟩
  | cons p rest ih =>
    intro g st vis hframe hmono hwf hdr hdc hb
    have hpb : p.1 < G.rows ∧ p.2 < G.cols := hb p (List.mem_cons_self p rest)
    have hbrest : ∀ q ∈ rest, q.1 < G.rows ∧ q.2 < G.cols :=
      fun q hq => hb q (List.mem_cons_of_mem p hq)
    by_cases hskip : ((getCell g p.1 p.2).is_revealed || (getCell g p.1 p.2).is_flagged ||
        (getCell g p.1 p.2).is_mine) = true
    · rw [processNeighbors_skip g p rest st vis hskip]
      obtain ⟨news, h1, h2, h3, h4, h5⟩ := ih g st vis hframe hmono hwf hdr hdc hbrest
      obtain ⟨_, _, _, _, _, _, _, _, _, smono, _⟩ :=
        processNeighbors_struct rest g st vis
      refine ⟨news, h1,
        fun q hq => ⟨(h2 q hq).1, List.mem_cons_of_mem p (h2 q hq).2.1, (h2 q hq).2.2⟩,
        ?_, ?_, h5⟩
      · intro r c hrev
        rcases h3 r c hrev with hh | hh
        · exact Or.inl hh
        · exact Or.inr ⟨List.mem_cons_of_mem p hh.1, hh.2⟩
      · intro q hq hop
        rcases List.mem_cons.mp hq with hq | hq
        · subst hq
          obtain ⟨f1, f2, _⟩ := hframe q.1 q.2
          have hrevg : (getCell g q.1 q.2).is_revealed = true := by
            rcases Bool.or_eq_true_iff.mp (by
              rcases Bool.or_eq_true_iff.mp hskip with hh | hh
              · exact hh
              · rw [f1, hop.2.2] at hh
                exact absurd hh (by simp)) with hh | hh
            · exact hh
            · rw [f2, hop.2.1] at hh
              exact absurd hh (by simp)
          exact smono q.1 q.2 hrevg
        · exact h4 q hq hop
    · obtain ⟨hopen, hgrev⟩ := skip_false_fields G g p hframe hmono hskip
      have hframe1 : ∀ r c, (getCell (revealCellAt g p) r c).is_mine
            = (getCell G r c).is_mine ∧
          (getCell (revealCellAt g p) r c).is_flagged = (getCell G r c).is_flagged ∧
          (getCell (revealCellAt g p) r c).adjacent_mines
            = (getCell G r c).adjacent_mines := by
        intro r c
        obtain ⟨e1, e2, e3⟩ := getCell_revealCellAt_fields g p r c
        obtain ⟨f1, f2, f3⟩ := hframe r c
        exact ⟨by rw [e1, f1], by rw [e2, f2], by rw [e3, f3]⟩
      have hmono1 : ∀ r c, (getCell G r c).is_revealed = true →
          (getCell (revealCellAt g p) r c).is_revealed = true :=
        fun r c hh => revealCellAt_mono g p r c (hmono r c hh)
      have hwf1 : WF (revealCellAt g p) := WF_revealCellAt g p hwf
      have hdr1 : (revealCellAt g p).rows = G.rows := by rw [revealCellAt_rows, hdr]
      have hdc1 : (revealCellAt g p).cols = G.cols := by rw [revealCellAt_cols, hdc]
      have hself : (getCell (revealCellAt g p) p.1 p.2).is_revealed = true := by
        rw [getCell_revealCellAt_self g p hwf (by rw [hdr]; exact hpb.1)
          (by rw [hdc]; exact hpb.2)]
      by_cases hpush : (getCell g p.1 p.2).adjacent_mines = 0 ∧ p ∉ vis
      · rw [processNeighbors_push g p rest st vis hskip hpush.1 hpush.2]
        obtain ⟨news, h1, h2, h3, h4, h5⟩ :=
          ih (revealCellAt g p) (p :: st) (p :: vis) hframe1 hmono1 hwf1 hdr1 hdc1 hbrest
        obtain ⟨_, _, _, _, _, _, _, _, _, smono, _⟩ :=
          processNeighbors_struct rest (revealCellAt g p) (p :: st) (p :: vis)
        have hzp : zcell G p := by
          refine ⟨hopen, ?_⟩
          rw [← (hframe p.1 p.2).2.2]
          exact hpush.1
        refine ⟨news ++ [p], ?_, ?_, ?_, ?_, ?_⟩
        · rw [h1]
          simp
        · intro q hq
          rcases List.mem_append.mp hq with hq | hq
          · obtain ⟨hnv, hmem, hz⟩ := h2 q hq
            exact ⟨fun hv => hnv (List.mem_cons_of_mem p hv),
              List.mem_cons_of_mem p hmem, hz⟩
          · rw [List.mem_singleton] at hq
            subst hq
            exact ⟨hpush.2, List.mem_cons_self q rest, hzp⟩
        · intro r c hrev
          rcases h3 r c hrev with hh | hh
          · rcases revealCellAt_rev_cases g p r c hh with hg | hg
            · exact Or.inl hg
            · right
              refine ⟨by rw [hg]; exact List.mem_cons_self p rest, ?_⟩
              rw [show ((r, c) : Nat × Nat) = p from hg]
              exact hopen
          · exact Or.inr ⟨List.mem_cons_of_mem p hh.1, hh.2⟩
        · intro q hq hop
          rcases List.mem_cons.mp hq with hq | hq
          · subst hq
            exact smono q.1 q.2 hself
          · exact h4 q hq hop
        · intro q hzq hrev
          rcases h5 q hzq hrev with hh | hh | hh
          · rcases revealCellAt_rev_cases g p q.1 q.2 hh with hg | hg
            · exact Or.inl hg
            · right
              left
              rw [List.mem_append, List.mem_singleton]
              right
              exact hg
          · exact Or.inr (Or.inl (by rw [List.mem_append]; exact Or.inl hh))
          · rcases List.mem_cons.mp hh with hh | hh
            · subst hh
              right
              left
              rw [List.mem_append, List.mem_singleton]
              exact Or.inr rfl
            · exact Or.inr (Or.inr hh)
      · rw [processNeighbors_open g p rest st vis hskip hpush]
        obtain ⟨news, h1, h2, h3, h4, h5⟩ :=
          ih (revealCellAt g p) st vis hframe1 hmono1 hwf1 hdr1 hdc1 hbrest
        obtain ⟨_, _, _, _, _, _, _, _, _, smono, _⟩ :=
          processNeighbors_struct rest (revealCellAt g p) st vis
        refine ⟨news, h1,
          fun q hq => ⟨(h2 q hq).1, List.mem_cons_of_mem p (h2 q hq).2.1, (h2 q hq).2.2⟩,
          ?_, ?_, ?_⟩
        · intro r c hrev
          rcases h3 r c hrev with hh | hh
          · rcases revealCellAt_rev_cases g p r c hh with hg | hg
            · exact Or.inl hg
            · right
              refine ⟨by rw [hg]; exact List.mem_cons_self p rest, ?_⟩
              rw [show ((r, c) : Nat × Nat) = p from hg]
              exact hopen
          · exact Or.inr ⟨List.mem_cons_of_mem p hh.1, hh.2⟩
        · intro q hq hop
          rcases List.mem_cons.mp hq with hq | hq
          · subst hq
            exact smono q.1 q.2 hself
          · exact h4 q hq hop
        · intro q hzq hrev
          rcases h5 q hzq hrev with hh | hh | hh
          · rcases revealCellAt_rev_cases g p q.1 q.2 hh with hg | hg
            · exact Or.inl hg
            · have hqp : q = p := hg
              subst hqp
              right
              right
              have hadj : (getCell g q.1 q.2).adjacent_mines = 0 := by
                rw [(hframe q.1 q.2).2.2]
                exact hzq.2
              rcases Decidable.not_and_iff_or_not.mp hpush with hc | hc
              · exact absurd hadj hc
              · exact Decidable.not_not.mp hc
          · exact Or.inr (Or.inl hh)
          · exact Or.inr (Or.inr hh)

lemma floodLoop_inv (G : Game) (s : Nat × Nat) (hzs : zcell G s) :
    ∀ fuel : Nat, ∀ (g : Game) (st vis : List (Nat × Nat)),
    FloodInv G s g st vis → Phi (G.rows * G.cols) st vis ≤ fuel →
    ∃ vis' : List (Nat × Nat), (∀ p ∈ vis, p ∈ vis') ∧
      FloodInv G s (floodLoop fuel g st vis) [] vis' := by
  intro fuel
  induction fuel with
  | zero =>
    intro g st vis hinv hphi
    have hst : st = [] := by
      unfold Phi at hphi
      cases st with
      | nil => rfl
      | cons a l => simp at hphi
    subst hst
    exact ⟨vis, fun p hp => hp, hinv⟩
  | succ n ih =>
    intro g st vis hinv hphi
    rcases st with _ | ⟨cur, rest⟩
    · exact ⟨vis, fun p hp => hp, hinv⟩
    · have hcvis : cur ∈ vis := hinv.stSub cur (List.mem_cons_self cur rest)
      have hcz : ZReach G s cur := hinv.visZ cur hcvis
      have hczc : zcell G cur := ZReach_zcell G s cur hzs hcz
      have hnb : neighbors g cur.1 cur.2 = neighbors G cur.1 cur.2 :=
        neighbors_dims_congr G g cur.1 cur.2 hinv.dimsR hinv.dimsC
      rw [floodLoop_unfold, hnb]
      have hbps : ∀ p ∈ neighbors G cur.1 cur.2, p.1 < G.rows ∧ p.2 < G.cols :=
        fun p hp => mem_neighbors_bounds G cur.1 cur.2 p hp
      obtain ⟨news, r1, r2, r3, r4, r5⟩ :=
        processNeighbors_rich G (neighbors G cur.1 cur.2) g rest vis
          hinv.frame hinv.mono hinv.wf hinv.dimsR hinv.dimsC hbps
      obtain ⟨news2, s1, s2nodup, s3, srows, scols, smines, splaced, sfields, smono, swf⟩ :=
        processNeighbors_struct (neighbors G cur.1 cur.2) g rest vis
      have hnews : news = news2 := by
        have heq := r1.symm.trans s1
        have h21 : news ++ rest = news2 ++ rest :=
          congrArg (fun t : Game × List (Nat × Nat) × List (Nat × Nat) => t.2.1) heq
        exact List.append_cancel_right h21
      subst hnews
      have e21 : (processNeighbors g (neighbors G cur.1 cur.2) rest vis).2.1
          = news ++ rest := by rw [r1]
      have e22 : (processNeighbors g (neighbors G cur.1 cur.2) rest vis).2.2
          = news ++ vis := by rw [r1]
      rw [e21, e22]
      have hinv' : FloodInv G s
          (processNeighbors g (neighbors G cur.1 cur.2) rest vis).1
          (news ++ rest) (news ++ vis) := by
        refine ⟨srows.trans hinv.dimsR, scols.trans hinv.dimsC, swf hinv.wf, ?_, ?_, ?_,
          ?_, ?_, ?_, ?_, ?_, ?_, ?_⟩
        · intro r c
          obtain ⟨f1, f2, f3⟩ := sfields r c
          obtain ⟨e1, e2, e3⟩ := hinv.frame r c
          exact ⟨by rw [f1, e1], by rw [f2, e2], by rw [f3, e3]⟩
        · intro r c hh
          exact smono r c (hinv.mono r c hh)
        · intro p hp
          rcases List.mem_append.mp hp with hp | hp
          · obtain ⟨_, hmem, hzp⟩ := r2 p hp
            exact ZReach.step hcz hczc hmem hzp
          · exact hinv.visZ p hp
        · intro p hp
          rcases List.mem_append.mp hp with hp | hp
          · exact List.mem_append_left vis hp
          · exact List.mem_append_right news
              (hinv.stSub p (List.mem_cons_of_mem cur hp))
        · rw [List.nodup_append]
          exact ⟨s2nodup, hinv.visNodup, fun a ha => (r2 a ha).1⟩
        · intro p hp
          rcases List.mem_append.mp hp with hp | hp
          · exact mem_neighbors_bounds G cur.1 cur.2 p (r2 p hp).2.1
          · exact hinv.visBounds p hp
        · intro p hp
          rcases List.mem_append.mp hp with hp | hp
          · exact r4 p (r2 p hp).2.1 (r2 p hp).2.2.1
          · exact smono p.1 p.2 (hinv.visRev p hp)
        · intro p hzp hrev
          rcases r5 p hzp hrev with hh | hh | hh
          · exact List.mem_append_right news (hinv.zVis p hzp hh)
          · exact List.mem_append_left vis hh
          · exact List.mem_append_right news hh
        · intro r c hrev
          rcases r3 r c hrev with hh | hh
          · exact hinv.sound r c hh
          · exact Or.inr ⟨hh.2, Or.inr ⟨cur, hcz, hh.1⟩⟩
        · intro q hq hqns p hp hop
          rcases List.mem_append.mp hq with hqn | hqv
          · exact absurd (List.mem_append_left rest hqn) hqns
          · by_cases hqc : q = cur
            · subst hqc
              exact r4 p hp hop
            · have hqrest : q ∉ cur :: rest := by
                intro hmem
                rcases List.mem_cons.mp hmem with hmem | hmem
                · exact hqc hmem
                · exact hqns (List.mem_append_right news hmem)
              exact smono p.1 p.2 (hinv.closed q hqv hqrest p hp hop)
      have hlen : (news ++ vis).length ≤ G.rows * G.cols :=
        nodup_bounds_length_le G.rows G.cols (news ++ vis) hinv'.visNodup hinv'.visBounds
      have hphi' : Phi (G.rows * G.cols) (news ++ rest) (news ++ vis) ≤ n := by
        unfold Phi at hphi ⊢
        rw [List.length_append, List.length_append]
        rw [List.length_append] at hlen
        simp only [List.length_cons] at hphi
        omega
      obtain ⟨vis'', hsub, hfin⟩ := ih
        (processNeighbors g (neighbors G cur.1 cur.2) rest vis).1
        (news ++ rest) (news ++ vis) hinv' hphi'
      exact ⟨vis'', fun p hp => hsub p (List.mem_append_right news hp), hfin⟩

lemma reveal_placed_isOk (g : Game) (sample : List (Nat × Nat)) (row col : Int)
    (hv : validPos g row col = true) (hpl : g.mines_placed = true) :
    ∃ g' b, reveal g sample row col = .ok (g', b) := by
  by_cases hfr : ((getCell g row.toNat col.toNat).is_flagged ||
      (getCell g row.toNat col.toNat).is_revealed) = true
  · exact ⟨g, true, reveal_placed_noop g sample row col hv hpl hfr⟩
  · by_cases hm : (getCell g row.toNat col.toNat).is_mine = true
    · exact ⟨_, false, reveal_placed_mine g sample row col hv hpl hfr hm⟩
    · by_cases hz : (getCell g row.toNat col.toNat).adjacent_mines = 0
      · exact ⟨_, true, reveal_placed_flood g sample row col hv hpl hfr hm hz⟩
      · exact ⟨_, true, reveal_placed_plain g sample row col hv hpl hfr hm hz⟩

lemma reachable_inv (g : Game) (h : Reachable g) :
    WF g ∧
    (g.mines_placed = false → ∀ r c, r < g.rows → c < g.cols →
      (getCell g r c).is_mine = false) ∧
    (g.mines_placed = true → MinesInv g) := by
  induction h with
  | created hc =>
    obtain ⟨_, _, _, hpl, hwf, hcells, _⟩ := create_ok_shape _ _ _ _ hc
    refine ⟨hwf, ?_, ?_⟩
    · intro _ r c hr hc'
      rw [hcells r c hr hc']
    · intro hp
      rw [hpl] at hp
      exact absurd hp (by simp)
  | revealed hre hsam heq ih =>
    rename_i g0 sample row col g' b
    obtain ⟨ihwf, ihfresh, ihinv⟩ := ih
    by_cases hpl : g0.mines_placed = true
    · obtain ⟨f1, f2, f3, f4, f5, _, f7⟩ :=
        reveal_placed_frame g0 sample row col g' b hpl heq
      refine ⟨f7 ihwf, ?_, ?_⟩
      · intro hcontra
        rw [f4] at hcontra
        exact absurd hcontra (by simp)
      · intro _
        exact minesInv_congr g0 g' f1 f2 f3 (fun r c _ _ => (f5 r c).1)
          (fun r c _ _ => (f5 r c).2.2) (ihinv hpl)
    · have hplf : g0.mines_placed = false := by
        cases hb : g0.mines_placed
        · rfl
        · exact absurd hb hpl
      obtain ⟨hnd, hlen, hmem⟩ := hsam hplf
      by_cases hv : validPos g0 row col = true
      · rw [reveal_unplaced_shift g0 sample row col hv hplf] at heq
        set P := placeMines g0 sample with hP
        have hPwf : WF P := WF_placeMines g0 sample
        have hPinv : MinesInv P := by
          apply placeMines_minesInv g0 sample ihwf (ihfresh hplf) hnd hlen
          intro p hp
          have := (mem_availablePositions g0 _ p).1 (hmem p hp)
          exact ⟨this.1, this.2.1⟩
        obtain ⟨f1, f2, f3, f4, f5, _, f7⟩ :=
          reveal_placed_frame P sample row col g' b (placeMines_placed g0 sample) heq
        refine ⟨f7 hPwf, ?_, ?_⟩
        · intro hcontra
          rw [f4] at hcontra
          exact absurd hcontra (by simp)
        · intro _
          exact minesInv_congr P g' f1 f2 f3 (fun r c _ _ => (f5 r c).1)
            (fun r c _ _ => (f5 r c).2.2) hPinv
      · rw [reveal_oob g0 sample row col (by
          cases hb : validPos g0 row col
          · rfl
          · exact absurd hb hv)] at heq
        exact absurd heq (by simp)
  | flagged hre heq ih =>
    rename_i g0 row col g'
    obtain ⟨ihwf, ihfresh, ihinv⟩ := ih
    obtain ⟨f1, f2, f3, f4, f5, f6⟩ := toggle_flag_frame g0 row col g' heq
    refine ⟨f6 ihwf, ?_, ?_⟩
    · intro hp r c hr hc'
      rw [f1] at hr
      rw [f2] at hc'
      rw [(f5 r c).1]
      rw [f4] at hp
      exact ihfresh hp r c hr hc'
    · intro hp
      rw [f4] at hp
      exact minesInv_congr g0 g' f1 f2 f3 (fun r c _ _ => (f5 r c).1)
        (fun r c _ _ => (f5 r c).2.2) (ihinv hp)

/-- C3 (amended): revealing an in-bounds, unopened, unflagged, non-mine,
zero-clue cell of a board whose mines are already placed opens exactly the
previously opened cells plus the connected region of previously-unopened
unflagged zero-clue non-mine cells containing the target (8-neighborhood
connectivity through such cells), together with those cells' unflagged
non-mine unopened neighbors; no other field changes, and no mine cell is
ever opened.  The right-hand side is traversal-order-free, so the final
opened set does not depend on the traversal order. -/
theorem flood_reveal_characterization (g : Game) (sample : List (Nat × Nat))
    (row col : Int) (hwf : WF g) (hpl : g.mines_placed = true)
    (hv : validPos g row col = true)
    (hunop : (getCell g row.toNat col.toNat).is_revealed = false)
    (hunfl : (getCell g row.toNat col.toNat).is_flagged = false)
    (hnm : (getCell g row.toNat col.toNat).is_mine = false)
    (hz : (getCell g row.toNat col.toNat).adjacent_mines = 0) :
    ∃ g', reveal g sample row col = .ok (g', true) ∧
      (∀ r c, (getCell g' r c).is_revealed = true ↔
        ((getCell g r c).is_revealed = true ∨
          Opens g (row.toNat, col.toNat) (r, c))) ∧
      (∀ r c, (getCell g' r c).is_mine = (getCell g r c).is_mine ∧
        (getCell g' r c).is_flagged = (getCell g r c).is_flagged ∧
        (getCell g' r c).adjacent_mines = (getCell g r c).adjacent_mines) ∧
      (∀ r c, (getCell g' r c).is_mine = true →
        (getCell g' r c).is_revealed = (getCell g r c).is_revealed) := by
  obtain ⟨hbr, hbc⟩ := validPos_toNat g row col hv
  set s : Nat × Nat := (row.toNat, col.toNat) with hsdef
  have hzs : zcell g s := ⟨⟨hunop, hunfl, hnm⟩, hz⟩
  have hfr : ¬ ((getCell g row.toNat col.toNat).is_flagged ||
      (getCell g row.toNat col.toNat).is_revealed) = true := by
    rw [hunfl, hunop]
    simp
  have hm : ¬ (getCell g row.toNat col.toNat).is_mine = true := by
    rw [hnm]
    simp
  have hrev := reveal_placed_flood g sample row col hv hpl hfr hm hz
  set g2 := revealCellAt g s with hg2
  have hinv0 : FloodInv g s g2 [s] [s] := by
    refine ⟨revealCellAt_rows g s, revealCellAt_cols g s, WF_revealCellAt g s hwf,
      fun r c => getCell_revealCellAt_fields g s r c,
      fun r c h => revealCellAt_mono g s r c h, ?_, fun p hp => hp,
      List.nodup_singleton s, ?_, ?_, ?_, ?_, ?_⟩
    · intro p hp
      rw [List.mem_singleton] at hp
      subst hp
      exact ZReach.base
    · intro p hp
      rw [List.mem_singleton] at hp
      subst hp
      exact ⟨hbr, hbc⟩
    · intro p hp
      rw [List.mem_singleton] at hp
      subst hp
      rw [hg2, getCell_revealCellAt_self g s hwf hbr hbc]
    · intro p hzp hrev2
      rcases revealCellAt_rev_cases g s p.1 p.2 hrev2 with hg | hg
      · rw [hzp.1.1] at hg
        exact absurd hg (by simp)
      · rw [List.mem_singleton]
        exact hg
    · intro r c hrev2
      rcases revealCellAt_rev_cases g s r c hrev2 with hg | hg
      · exact Or.inl hg
      · right
        refine ⟨?_, Or.inl hg⟩
        rw [show ((r, c) : Nat × Nat) = s from hg]
        exact hzs.1
    · intro q hq hqs
      rw [List.mem_singleton] at hq
      subst hq
      exact absurd (List.mem_singleton.mpr rfl) hqs
  have hpos : 1 ≤ g.rows * g.cols := Nat.mul_pos (by omega) (by omega)
  have hphi0 : Phi (g.rows * g.cols) [s] [s] ≤ g2.rows * g2.cols := by
    show Phi (g.rows * g.cols) [s] [s] ≤ g.rows * g.cols
    unfold Phi
    simp only [List.length_singleton]
    omega
  obtain ⟨vis', hsub, hfin⟩ :=
    floodLoop_inv g s hzs (g2.rows * g2.cols) g2 [s] [s] hinv0 hphi0
  have hsmem : s ∈ vis' := hsub s (List.mem_singleton.mpr rfl)
  have hcl : ∀ p, ZReach g s p → p ∈ vis' := by
    intro p hp
    induction hp with
    | base => exact hsmem
    | step h1 h2 h3 h4 ihp =>
      exact hfin.zVis _ h4 (hfin.closed _ ihp (List.not_mem_nil _) _ h3 h4.1)
  refine ⟨floodReveal g2 row.toNat col.toNat, hrev, ?_, ?_, ?_⟩
  · intro r c
    constructor
    · intro hh
      exact hfin.sound r c hh
    · intro hh
      rcases hh with hh | ⟨hop, heq | ⟨q, hq, hmem⟩⟩
      · exact hfin.mono r c hh
      · obtain ⟨hr1, hc1⟩ : r = s.1 ∧ c = s.2 :=
          ⟨congrArg Prod.fst heq, congrArg Prod.snd heq⟩
        subst hr1
        subst hc1
        exact hfin.visRev s hsmem
      · exact hfin.closed q (hcl q hq) (List.not_mem_nil _) (r, c) hmem hop
  · intro r c
    exact hfin.frame r c
  · intro r c hmine
    have hres : floodReveal g2 row.toNat col.toNat
        = floodLoop (g2.rows * g2.cols) g2 [s] [s] := rfl
    rw [hres] at hmine ⊢
    by_cases hrv : (getCell (floodLoop (g2.rows * g2.cols) g2 [s] [s]) r c).is_revealed = true
    · rcases hfin.sound r c hrv with hh | hh
      · rw [hrv, hh]
      · exfalso
        have hmg : (getCell g r c).is_mine = false := hh.1.2.2
        have hfr2 := (hfin.frame r c).1
        rw [hmine, hmg] at hfr2
        exact absurd hfr2 (by simp)
    · have hrvf : (getCell (floodLoop (g2.rows * g2.cols) g2 [s] [s]) r c).is_revealed
          = false := by
        cases hx : (getCell (floodLoop (g2.rows * g2.cols) g2 [s] [s]) r c).is_revealed
        · rfl
        · exact absurd hx hrv
      have hgf : (getCell g r c).is_revealed = false := by
        cases hx : (getCell g r c).is_revealed
        · rfl
        · exact absurd (hfin.mono r c hx) hrv
      rw [hrvf, hgf]

/-- C1: on any reachable board whose mines are not yet placed, revealing any
in-bounds cell (the operation that triggers mine placement) succeeds and
leaves that cell mine-free, because the placement sample is drawn from the
grid positions excluding the target. -/
theorem first_reveal_safe (g : Game) (sample : List (Nat × Nat)) (row col : Int)
    (hre : Reachable g) (hnp : g.mines_placed = false)
    (hv : validPos g row col = true)
    (hs : SampleOk g sample (row.toNat, col.toNat)) :
    ∃ g' b, reveal g sample row col = .ok (g', b) ∧
      (getCell g' row.toNat col.toNat).is_mine = false := by
  obtain ⟨hwf, hfresh, _⟩ := reachable_inv g hre
  obtain ⟨hbr, hbc⟩ := validPos_toNat g row col hv
  rw [reveal_unplaced_shift g sample row col hv hnp]
  have hvP : validPos (placeMines g sample) row col = true := by
    rw [validPos_placeMines]
    exact hv
  obtain ⟨g', b, hok⟩ := reveal_placed_isOk (placeMines g sample) sample row col hvP
    (placeMines_placed g sample)
  obtain ⟨_, _, _, _, f5, _, _⟩ := reveal_placed_frame (placeMines g sample) sample
    row col g' b (placeMines_placed g sample) hok
  refine ⟨g', b, hok, ?_⟩
  rw [(f5 row.toNat col.toNat).1,
    (getCell_placeMines g sample hwf row.toNat col.toNat hbr hbc).1,
    hfresh hnp row.toNat col.toNat hbr hbc]
  have hnotmem : ((row.toNat, col.toNat) : Nat × Nat) ∉ sample := by
    intro hmem
    exact ((mem_availablePositions g _ _).1 (hs.2.2 _ hmem)).2.2 rfl
  simp [hnotmem]

/-- C1 witness: a concrete fresh 2×2 board, sample `[(1, 1)]`, first reveal
at `(0, 0)`. -/
theorem first_reveal_safe_witness :
    ∃ g' b, reveal fresh2x2 [(1, 1)] 0 0 = .ok (g', b) ∧
      (getCell g' (0 : Int).toNat (0 : Int).toNat).is_mine = false :=
  first_reveal_safe fresh2x2 [(1, 1)] 0 0
    (Reachable.created (by decide : create 2 2 1 = .ok fresh2x2))
    (by decide) (by decide) (by decide)

/-- C2: on every reachable board state whose mines have been placed, the
number of mined cells equals the configured mine count and every non-mine
cell's clue equals the number of mined cells among its in-bounds neighbors;
the invariant is established by placement and preserved by reveal and
toggle_flag (captured by induction over reachability). -/
theorem mines_placed_invariant (g : Game) (hre : Reachable g)
    (hpl : g.mines_placed = true) : MinesInv g :=
  (reachable_inv g hre).2.2 hpl

/-- C2 witness: the invariant holds on a seeded 5×5 board with five known
mines after the first reveal placed them. -/
theorem mines_placed_invariant_witness : MinesInv c2Board :=
  mines_placed_invariant c2Board
    (Reachable.revealed (Reachable.created (by decide : create 5 5 5 = .ok fresh5x5))
      (fun _ => by decide)
      (by decide : reveal fresh5x5 c2Sample 0 0 = .ok (c2Board, true)))
    (by decide)

/-- C7: the worklist of the embedded flood reveal is exhausted within
`rows * cols` iterations: any fuel of at least `rows * cols` produces the
same result as `floodReveal` itself (which runs on exactly `rows * cols`
fuel), so the cascade visits each cell at most once and the whole reveal
completes after at most `rows * cols` cell visits. -/
theorem flood_reveal_terminates (g : Game) (row col : Nat)
    (hr : row < g.rows) (hc : col < g.cols) (fuel : Nat)
    (hfuel : g.rows * g.cols ≤ fuel) :
    floodLoop fuel g [(row, col)] [(row, col)] = floodReveal g row col :=
  floodReveal_fuel g row col hr hc fuel hfuel

/-- C7 witness: on the 1×7 board, 20 units of fuel already give the fixed
point reached at 7. -/
theorem flood_reveal_terminates_witness :
    floodLoop 20 c3Before [(0, 0)] [(0, 0)] = floodReveal c3Before 0 0 :=
  flood_reveal_terminates c3Before 0 0 (by decide) (by decide) 20 (by decide)

/-- C8: construction validates dimensions first (`InvalidDimensions` when a
dimension is nonpositive), then the mine count (`InvalidMineCount` when it
is below 1 or at least `rows * cols`); on valid input it returns a board of
the requested shape with every cell unopened, unflagged and mine-free, and
mines not placed. -/
theorem create_validation : ∀ rows cols mines : Int,
    ((rows ≤ 0 ∨ cols ≤ 0) → create rows cols mines = .error .invalidDimensions) ∧
    (0 < rows → 0 < cols → (mines < 1 ∨ rows * cols ≤ mines) →
      create rows cols mines = .error .invalidMineCount) ∧
    (0 < rows → 0 < cols → 1 ≤ mines → mines < rows * cols →
      ∃ g, create rows cols mines = .ok g ∧ g.rows = rows.toNat ∧
        g.cols = cols.toNat ∧ g.mines = mines.toNat ∧ g.mines_placed = false ∧
        ∀ r c, r < g.rows → c < g.cols →
          (getCell g r c).is_revealed = false ∧ (getCell g r c).is_flagged = false ∧
          (getCell g r c).is_mine = false) := by
  intro rows cols mines
  refine ⟨fun h => create_eq_error_dims rows cols mines h, ?_, ?_⟩
  · intro h1 h2 h
    exact create_eq_error_mines rows cols mines h1 h2 (by omega)
  · intro h1 h2 h3 h4
    refine ⟨_, create_eq_ok rows cols mines h1 h2 (by omega) h4, rfl, rfl, rfl, rfl, ?_⟩
    intro r c hr hc
    obtain ⟨_, _, _, _, _, hcells, _⟩ :=
      create_ok_shape rows cols mines _ (create_eq_ok rows cols mines h1 h2 (by omega) h4)
    rw [hcells r c hr hc]
    exact ⟨rfl, rfl, rfl⟩

/-- C8 witness: the two boundary cases named by the spec. -/
theorem create_validation_witness :
    create 1 1 1 = .error .invalidMineCount ∧
    create 0 5 1 = .error .invalidDimensions :=
  ⟨(create_validation 1 1 1).2.1 (by decide) (by decide) (Or.inr (by decide)),
   (create_validation 0 5 1).1 (Or.inl (by decide))⟩

/-- C9: an out-of-bounds coordinate (including negative ones) makes both
reveal and toggle_flag fail with the out-of-bounds error; the validation
runs before any mutation or mine placement, and the functional embedding
returns only the error, so the board value is untouched. -/
theorem out_of_bounds_rejected :
    ∀ (g : Game) (sample : List (Nat × Nat)) (row col : Int),
      validPos g row col = false →
      reveal g sample row col = .error .outOfBounds ∧
      toggle_flag g row col = .error .outOfBounds :=
  fun g sample row col hv =>
    ⟨reveal_oob g sample row col hv, toggle_flag_oob g row col hv⟩

/-- C9 witness: a negative coordinate on the fresh 2×2 board. -/
theorem out_of_bounds_rejected_witness :
    reveal fresh2x2 [] (-1) 1 = .error .outOfBounds ∧
    toggle_flag fresh2x2 (-1) 1 = .error .outOfBounds :=
  out_of_bounds_rejected fresh2x2 [] (-1) 1 (by decide)

/-- C10: for a board built by the validated constructor and any in-bounds
first target, the `available` list has exactly `rows * cols - 1` entries,
which is at least the mine count, so `random.sample`'s failure branch is
unreachable; and any sample with the properties `random.sample` guarantees
marks exactly `mines` cells as mines. -/
theorem place_mines_well_defined :
    ∀ (rows cols mines : Int) (g : Game) (row col : Int),
      create rows cols mines = .ok g → validPos g row col = true →
      (availablePositions g (row.toNat, col.toNat)).length = g.rows * g.cols - 1 ∧
      g.mines ≤ (availablePositions g (row.toNat, col.toNat)).length ∧
      (∀ sample, SampleOk g sample (row.toNat, col.toNat) →
        countMines (placeMines g sample) = g.mines) := by
  intro rows cols mines g row col hc hv
  obtain ⟨e1, e2, e3, _, hwf, hcells, h1, h2, h3, h4⟩ := create_ok_shape rows cols mines g hc
  obtain ⟨hbr, hbc⟩ := validPos_toNat g row col hv
  have hlen : (availablePositions g (row.toNat, col.toNat)).length
      = g.rows * g.cols - 1 :=
    length_availablePositions g (row.toNat, col.toNat) ⟨hbr, hbc⟩
  have hRpos : (rows : Int) = ((g.rows : Nat) : Int) := by
    rw [e1]
    exact (Int.toNat_of_nonneg (by omega)).symm
  have hCpos : (cols : Int) = ((g.cols : Nat) : Int) := by
    rw [e2]
    exact (Int.toNat_of_nonneg (by omega)).symm
  have hprod : rows * cols = ((g.rows * g.cols : Nat) : Int) := by
    rw [hRpos, hCpos]
    push_cast
    ring
  have hmlt : mines < ((g.rows * g.cols : Nat) : Int) := by
    rw [← hprod]
    exact h4
  have hmn : g.mines = mines.toNat := e3
  have hle : g.mines ≤ g.rows * g.cols - 1 := by
    set k := g.rows * g.cols with hk
    omega
  refine ⟨hlen, by rw [hlen]; exact hle, ?_⟩
  intro sample hs
  have := placeMines_minesInv g sample hwf
    (fun r c hr hc' => ((hcells r c hr hc') ▸ rfl))
    hs.1 hs.2.1
    (fun p hp => by
      have hm := (mem_availablePositions g _ p).1 (hs.2.2 p hp)
      exact ⟨hm.1, hm.2.1⟩)
  rw [this.1, placeMines_mines]

/-- C10 witness: the 2×2 board with one mine and first target `(0, 0)`. -/
theorem place_mines_well_defined_witness :
    (availablePositions fresh2x2 ((0 : Int).toNat, (0 : Int).toNat)).length
        = fresh2x2.rows * fresh2x2.cols - 1 ∧
    fresh2x2.mines ≤
      (availablePositions fresh2x2 ((0 : Int).toNat, (0 : Int).toNat)).length ∧
    (∀ sample, SampleOk fresh2x2 sample ((0 : Int).toNat, (0 : Int).toNat) →
      countMines (placeMines fresh2x2 sample) = fresh2x2.mines) :=
  place_mines_well_defined 2 2 1 fresh2x2 0 0 (by decide) (by decide)

/-- C3 witness: the characterization applied to the concrete 1×7 state
`c3Before` at its unopened zero-clue cell `(0, 4)`. -/
theorem flood_reveal_characterization_witness :
    ∃ g', reveal c3Before [] 0 4 = .ok (g', true) ∧
      (∀ r c, (getCell g' r c).is_revealed = true ↔
        ((getCell c3Before r c).is_revealed = true ∨
          Opens c3Before ((0 : Int).toNat, (4 : Int).toNat) (r, c))) ∧
      (∀ r c, (getCell g' r c).is_mine = (getCell c3Before r c).is_mine ∧
        (getCell g' r c).is_flagged = (getCell c3Before r c).is_flagged ∧
        (getCell g' r c).adjacent_mines = (getCell c3Before r c).adjacent_mines) ∧
      (∀ r c, (getCell g' r c).is_mine = true →
        (getCell g' r c).is_revealed = (getCell c3Before r c).is_revealed) :=
  flood_reveal_characterization c3Before [] 0 4 (by decide) (by decide) (by decide)
    (by decide) (by decide) (by decide) (by decide)

/-- C3 counterexample: in the reachable 1×7 state `c3Before`, cell `(0, 0)`
belongs to the claim's region of the reveal at `(0, 4)` — it is an
unflagged, zero-clue, non-mine cell connected to `(0, 4)` through such
cells — and it was not previously opened, yet after `reveal (0, 4)` it is
still not opened: the claimed equality of opened sets fails because the
already-opened cell `(0, 2)` cuts the traversal off. -/
theorem flood_claim_counterexample :
    validPos c3Before 0 4 = true ∧
    (getCell c3Before 0 4).is_revealed = false ∧
    (getCell c3Before 0 4).is_flagged = false ∧
    (getCell c3Before 0 4).is_mine = false ∧
    (getCell c3Before 0 4).adjacent_mines = 0 ∧
    ZReachSpec c3Before (0, 4) (0, 0) ∧
    (getCell c3Before 0 0).is_revealed = false ∧
    reveal c3Before [] 0 4 = .ok (c3After, true) ∧
    (getCell c3After 0 0).is_revealed = false := by
  refine ⟨by decide, by decide, by decide, by decide, by decide, ?_,
    by decide, by decide, by decide⟩
  have h3 : ZReachSpec c3Before (0, 4) (0, 3) :=
    ZReachSpec.step ZReachSpec.base (by decide) (by decide) (by decide)
  have h2 : ZReachSpec c3Before (0, 4) (0, 2) :=
    ZReachSpec.step h3 (by decide) (by decide) (by decide)
  have h1 : ZReachSpec c3Before (0, 4) (0, 1) :=
    ZReachSpec.step h2 (by decide) (by decide) (by decide)
  exact ZReachSpec.step h1 (by decide) (by decide) (by decide)

/-- C4 (amended): once mines are placed, revealing an in-bounds cell that is
already opened or flagged returns success with the board unchanged; before
mines are placed, revealing a flagged cell still returns success and leaves
the cell unopened, but it does place the mines (a state change the original
claim ruled out). -/
theorem reveal_opened_or_flagged_noop :
    (∀ (g : Game) (sample : List (Nat × Nat)) (row col : Int),
      g.mines_placed = true → validPos g row col = true →
      ((getCell g row.toNat col.toNat).is_revealed = true ∨
        (getCell g row.toNat col.toNat).is_flagged = true) →
      reveal g sample row col = .ok (g, true)) ∧
    (∀ (g : Game) (sample : List (Nat × Nat)) (row col : Int),
      WF g → g.mines_placed = false → validPos g row col = true →
      (getCell g row.toNat col.toNat).is_flagged = true →
      reveal g sample row col = .ok (placeMines g sample, true) ∧
      (getCell (placeMines g sample) row.toNat col.toNat).is_revealed
        = (getCell g row.toNat col.toNat).is_revealed) := by
  constructor
  · intro g sample row col hpl hv hor
    apply reveal_placed_noop g sample row col hv hpl
    rcases hor with hh | hh <;> simp [hh]
  · intro g sample row col hwf hnp hv hfl
    obtain ⟨hbr, hbc⟩ := validPos_toNat g row col hv
    obtain ⟨m1, m2, m3⟩ := getCell_placeMines g sample hwf row.toNat col.toNat hbr hbc
    constructor
    · rw [reveal_unplaced_shift g sample row col hv hnp]
      apply reveal_placed_noop _ sample row col
        (by rw [validPos_placeMines]; exact hv) (placeMines_placed g sample)
      rw [m3, hfl]
      simp
    · exact m2

/-- C4 witness: part one applied to the concrete placed 2×2 state `c4After`
whose cell `(0, 0)` is flagged. -/
theorem reveal_opened_or_flagged_noop_witness :
    reveal c4After [] 0 0 = .ok (c4After, true) :=
  reveal_opened_or_flagged_noop.1 c4After [] 0 0 (by decide) (by decide)
    (Or.inr (by decide))

/-- C4 counterexample: on the fresh 2×2 board with `(0, 0)` flagged and
mines not yet placed, `reveal (0, 0)` returns the safe outcome and leaves
the cell unopened, but the state does change: the mines get placed.  The
claim asserted no state change for every flagged in-bounds cell. -/
theorem reveal_noop_claim_counterexample :
    c4Before.mines_placed = false ∧
    validPos c4Before 0 0 = true ∧
    (getCell c4Before 0 0).is_flagged = true ∧
    reveal c4Before [(1, 1)] 0 0 = .ok (c4After, true) ∧
    (getCell c4After 0 0).is_revealed = false ∧
    c4After ≠ c4Before ∧
    c4After.mines_placed = true ∧
    (getCell c4After 1 1).is_mine = true := by decide

/-- C5 (amended): toggle_flag never triggers mine placement — `minesPlaced`
is unchanged by it; on an in-bounds opened cell it is a no-op, and on an
in-bounds unopened cell it inverts exactly that cell's flag (leaving the
cell unopened and every other cell untouched). -/
theorem toggle_flag_no_placement :
    ∀ (g : Game) (row col : Int), validPos g row col = true → WF g →
      ∃ g', toggle_flag g row col = .ok g' ∧
        g'.mines_placed = g.mines_placed ∧ g'.rows = g.rows ∧ g'.cols = g.cols ∧
        ((getCell g row.toNat col.toNat).is_revealed = true → g' = g) ∧
        ((getCell g row.toNat col.toNat).is_revealed = false →
          (getCell g' row.toNat col.toNat).is_flagged
              = !(getCell g row.toNat col.toNat).is_flagged ∧
          (getCell g' row.toNat col.toNat).is_revealed = false ∧
          (∀ r c, (r, c) ≠ (row.toNat, col.toNat) →
            getCell g' r c = getCell g r c)) := by
  intro g row col hv hwf
  obtain ⟨hbr, hbc⟩ := validPos_toNat g row col hv
  by_cases hrev : (getCell g row.toNat col.toNat).is_revealed = true
  · refine ⟨g, toggle_flag_opened g row col hv hrev, rfl, rfl, rfl,
      fun _ => rfl, ?_⟩
    intro hcontra
    rw [hrev] at hcontra
    exact absurd hcontra (by simp)
  · have hrf : (getCell g row.toNat col.toNat).is_revealed = false := by
      cases hx : (getCell g row.toNat col.toNat).is_revealed
      · rfl
      · exact absurd hx hrev
    refine ⟨_, toggle_flag_unopened g row col hv hrev, rfl, rfl, rfl,
      fun hcontra => absurd hcontra hrev, ?_⟩
    intro _
    have hself := getCell_setCell_self g row.toNat col.toNat
      (fun cl => { cl with is_flagged := !cl.is_flagged })
      (by rw [hwf.1]; exact hbr) (by rw [hwf.2 row.toNat hbr]; exact hbc)
    refine ⟨by rw [hself], by rw [hself]; exact hrf, ?_⟩
    intro r c hne
    exact getCell_setCell_ne g row.toNat col.toNat r c _ (fun hh => hne hh.symm)

/-- C5 witness: toggling the flag of `(0, 0)` on the fresh 2×2 board. -/
theorem toggle_flag_no_placement_witness :
    ∃ g', toggle_flag fresh2x2 0 0 = .ok g' ∧
      g'.mines_placed = fresh2x2.mines_placed ∧ g'.rows = fresh2x2.rows ∧
      g'.cols = fresh2x2.cols ∧
      ((getCell fresh2x2 (0 : Int).toNat (0 : Int).toNat).is_revealed = true →
        g' = fresh2x2) ∧
      ((getCell fresh2x2 (0 : Int).toNat (0 : Int).toNat).is_revealed = false →
        (getCell g' (0 : Int).toNat (0 : Int).toNat).is_flagged
            = !(getCell fresh2x2 (0 : Int).toNat (0 : Int).toNat).is_flagged ∧
        (getCell g' (0 : Int).toNat (0 : Int).toNat).is_revealed = false ∧
        (∀ r c, (r, c) ≠ ((0 : Int).toNat, (0 : Int).toNat) →
          getCell g' r c = getCell fresh2x2 r c)) :=
  toggle_flag_no_placement fresh2x2 0 0 (by decide) (by decide)

/-- C5 counterexample: the very first action on a fresh 2×2 board is a flag
on `(0, 0)`; the claim says this triggers mine placement, but afterwards
`minesPlaced` is still false and the board carries no mine at all. -/
theorem toggle_flag_claim_counterexample :
    fresh2x2.mines_placed = false ∧
    toggle_flag fresh2x2 0 0 = .ok c4Before ∧
    c4Before.mines_placed = false ∧
    countMines c4Before = 0 := by decide

/-- C6 (amended): the parser rejects a bare two-token command whose first
token is not one of the action words — in particular a bare
`<row> <col>` integer pair is an unknown-command parse error, not an
implicit reveal; the accepted forms are exactly the `q`/`quit`/`exit`,
`r`/`reveal` and `f`/`flag` ones. -/
theorem parse_bare_coords_rejected :
    (∀ t1 t2 : String,
      lowerString t1 ≠ "q" → lowerString t1 ≠ "quit" → lowerString t1 ≠ "exit" →
      lowerString t1 ≠ "r" → lowerString t1 ≠ "reveal" →
      lowerString t1 ≠ "f" → lowerString t1 ≠ "flag" →
      parse_command [t1, t2] = .error .unknownCommand) ∧
    parse_command ["r", "2", "3"] = .ok ("r", some (1, 2)) ∧
    parse_command ["reveal", "2", "3"] = .ok ("r", some (1, 2)) ∧
    parse_command ["f", "2", "3"] = .ok ("f", some (1, 2)) ∧
    parse_command ["flag", "2", "3"] = .ok ("f", some (1, 2)) ∧
    parse_command ["q"] = .ok ("quit", none) ∧
    parse_command ["quit"] = .ok ("quit", none) ∧
    parse_command ["exit"] = .ok ("quit", none) := by
  refine ⟨?_, by decide, by decide, by decide, by decide, by decide,
    by decide, by decide⟩
  intro t1 t2 h1 h2 h3 h4 h5 h6 h7
  have hq : ¬(lowerString t1 = "q" ∨ lowerString t1 = "quit" ∨
      lowerString t1 = "exit") := by
    rintro (h | h | h)
    · exact h1 h
    · exact h2 h
    · exact h3 h
  have ha : ¬(lowerString t1 = "r" ∨ lowerString t1 = "reveal" ∨
      lowerString t1 = "f" ∨ lowerString t1 = "flag") := by
    rintro (h | h | h | h)
    · exact h4 h
    · exact h5 h
    · exact h6 h
    · exact h7 h
  show (if lowerString t1 = "q" ∨ lowerString t1 = "quit" ∨ lowerString t1 = "exit"
      then Except.ok ("quit", none)
      else if lowerString t1 = "r" ∨ lowerString t1 = "reveal" ∨ lowerString t1 = "f" ∨
          lowerString t1 = "flag" then
        (match ([t2] : List String) with
          | [a, b] =>
            (match parseInt? a, parseInt? b with
              | some row, some col =>
                Except.ok (strTake1 (lowerString t1), some (row - 1, col - 1))
              | _, _ => Except.error ParseError.badInteger)
          | _ => Except.error ParseError.missingCoords)
      else Except.error ParseError.unknownCommand)
      = Except.error ParseError.unknownCommand
  rw [if_neg hq, if_neg ha]

/-- C6 witness: for the bare pair `2 3` the parser reports an unknown
command. -/
theorem parse_bare_coords_rejected_witness :
    parse_command ["2", "3"] = .error .unknownCommand :=
  parse_bare_coords_rejected.1 "2" "3" (by decide) (by decide) (by decide)
    (by decide) (by decide) (by decide) (by decide)

/-- C6 counterexample: `"2"` and `"3"` are integer tokens, yet the two-token
command `2 3` is rejected with an unknown-command error instead of being
treated as an implicit reveal as the claim states. -/
theorem parse_claim_counterexample :
    parseInt? "2" = some 2 ∧ parseInt? "3" = some 3 ∧
    parse_command ["2", "3"] = .error .unknownCommand := by decide

end Minesweeper
